import Mathlib

/-!
# Map-API: Chord index, chunk transactions, tables and Raft election

A shallow embedding of these parts of the repository:

* `chord-index.cc`: ring arithmetic (`isIn`), `closestPrecedingFinger`, `findSuccessor`,
  `create`, `join`, `handleNotify`, `registerPeer`;
* `chunk-transaction.cc`: `prepareCheck`, `check`, `checkedCommit`, `commit`, `merge`,
  `insert`, `update`, `getById`;
* `raft.cc`: `handleHearbeat`, `handleRequestVote`, `conductElection`;
* `net-table.cc`: `routingBasics`, the chunk request handlers and `update`;
* `cru-table.cc`: `update`, `bulkInsertCRDerived`;
* `history.cc`: `insert` and `revisionAt`.

Machine integers are natural numbers; where the source relies on wrap-around the
reduction modulo `2 ^ w` is written out.  A failed `CHECK` and `LOG(FATAL)` abort the
process; remote calls are calls of the target node's handler, and a call chain that
does not finish within the given number of hops is reported as `hang`.
-/

namespace map_api

/-! ## Shared vocabulary -/

/-- Network identity of a peer (`PeerId`, an `ip:port` string in the source); only
equality of identities is used, so an identity is a number here. -/
abbrev PeerId := Nat

/-- Outcome of a call: it returns a value, the process aborts (`CHECK` failure or
`LOG(FATAL)`), or the chain of remote calls does not finish within the hop budget. -/
inductive Outcome (α : Type) where
  | ret : α → Outcome α
  | abort : Outcome α
  | hang : Outcome α
  deriving DecidableEq, Repr

/-- The glog macro `CHECK(condition)`: the process aborts unless the condition holds. -/
def CHECK {α : Type} (condition : Bool) (continuation : Outcome α) : Outcome α :=
  if condition then continuation else .abort

/-- Sequencing of calls: the first abnormal outcome ends the computation. -/
def Outcome.andThen {α β : Type} : Outcome α → (α → Outcome β) → Outcome β
  | .ret a, k => k a
  | .abort, _ => .abort
  | .hang, _ => .hang

/-- Whether the call returned normally. -/
def Outcome.returns {α : Type} : Outcome α → Bool
  | .ret _ => true
  | _ => false

/-! ## Chord index (`chord-index.cc`) -/

namespace ChordIndex

/-- `typedef uint16_t Key`. -/
abbrev Key := Nat

/-- `M = sizeof(Key) * 8`. -/
def M : Nat := 16

/-- Number of keys on the ring, `2 ^ M`. -/
def keySpace : Nat := 2 ^ M

/-- `ChordPeer`: a peer identity together with its key `hash(id)`. -/
structure ChordPeer where
  id : PeerId
  key : Key
  deriving DecidableEq, Repr

/-- One entry of `fingers_`. -/
structure Finger where
  base_key : Key
  peer : ChordPeer
  deriving DecidableEq, Repr

/-- `ChordIndex::isIn(key, from_inclusive, to_exclusive)`, lines 187-200. -/
def isIn (key from_inclusive to_exclusive : Key) : Bool :=
  if key = from_inclusive then true
  else if to_exclusive = from_inclusive then true
  else if from_inclusive ≤ to_exclusive then
    decide (from_inclusive < key ∧ key < to_exclusive)
  else
    decide (from_inclusive < key ∨ key < to_exclusive)

/-- State of one node's index.  `peers_` holds the keys of the `PeerMap` (the weak
pointers stored under them are alive exactly while a finger, the successor or the
predecessor holds the peer). -/
structure State where
  initialized_ : Bool
  own_key_ : Key
  self_ : ChordPeer
  fingers_ : List Finger
  successor_ : ChordPeer
  predecessor_ : ChordPeer
  peers_ : List PeerId
  deriving DecidableEq, Repr

/-- `ChordIndex::closestPrecedingFinger(key)`, lines 123-137: scans the fingers from
index `M - 1` down to `0` and returns the first whose peer key satisfies
`isIn(actual_key, own_key_, key)`; `none` is the `LOG(FATAL)` after the loop. -/
def closestPrecedingFinger (n : State) (key : Key) : Option ChordPeer :=
  (n.fingers_.reverse.find? (fun f => isIn f.peer.key n.own_key_ key)).map (fun f => f.peer)

/-- What one activation of `findSuccessor` does before any remote call. -/
inductive Action where
  | answer : PeerId → Action
  | delegate : PeerId → Action
  | fatal : Action
  deriving DecidableEq, Repr

/-- `ChordIndex::findSuccessor(key)`, lines 72-86, up to the remote call: answer with
`successor_->id`, or hand the query to `closestPrecedingFinger(key)`, whose
`LOG(FATAL)` aborts. -/
def findSuccessorAction (n : State) (key : Key) : Action :=
  if isIn key n.own_key_ n.successor_.key then .answer n.successor_.id
  else
    match closestPrecedingFinger n key with
    | none => .fatal
    | some closest_preceding => .delegate closest_preceding.id

/-- The nodes of the network, by identity. -/
abbrev Network := List (PeerId × State)

/-- `ChordIndex::findSuccessor(key)` with the remote call
`CHECK(findSuccessorRpc(closest_preceding->id, key, &result))` run as the target's
`handleFindSuccessor` (`CHECK(initialized_)`, then `findSuccessor`).  `hops` bounds the
number of remote calls. -/
def findSuccessor (net : Network) : Nat → State → Key → Outcome PeerId
  | hops, n, key =>
    match findSuccessorAction n key with
    | .answer p => .ret p
    | .fatal => .abort
    | .delegate to_ =>
      match hops with
      | 0 => .hang
      | hops + 1 =>
        match net.lookup to_ with
        | none => .abort
        | some target =>
          if target.initialized_ then findSuccessor net hops target key else .abort

/-- `findSuccessorRpc(to, key, &result)` under `CHECK`: the handler of node `to_`. -/
def findSuccessorRpc (net : Network) (hops : Nat) (to_ : PeerId) (key : Key) :
    Outcome PeerId :=
  match net.lookup to_ with
  | none => .abort
  | some target => if target.initialized_ then findSuccessor net hops target key else .abort

/-- `getPredecessorRpc(to, &predecessor)` under `CHECK`: `handleGetPredecessor` of node
`to`, lines 19-23. -/
def getPredecessorRpc (net : Network) (to_ : PeerId) : Outcome PeerId :=
  match net.lookup to_ with
  | none => .abort
  | some target => if target.initialized_ then .ret target.predecessor_.id else .abort

/-- `ChordIndex::handleNotify(peer_id)`, lines 25-70.  `hash` is `ChordIndex::hash`.
The new peer object is referenced more than once (`use_count() > 1`) exactly when it was
stored in a finger, as successor or as predecessor. -/
def handleNotify (hash : PeerId → Key) (n : State) (peer_id : PeerId) : State :=
  if peer_id ∈ n.peers_ then n
  else
    let peer : ChordPeer := ⟨peer_id, hash peer_id⟩
    let fix_finger : Finger → Bool := fun f => isIn peer.key f.base_key f.peer.key
    let fix_successor := isIn peer.key n.own_key_ n.successor_.key
    let fix_predecessor := isIn peer.key n.predecessor_.key n.own_key_
    let used := n.fingers_.any fix_finger || fix_successor || fix_predecessor
    { n with
      fingers_ := n.fingers_.map (fun f => if fix_finger f then { f with peer := peer } else f)
      successor_ := if fix_successor then peer else n.successor_
      predecessor_ := if fix_predecessor then peer else n.predecessor_
      peers_ := if used then peer_id :: n.peers_ else n.peers_ }

/-- `ChordIndex::init()`, lines 163-171: the base keys `own_key_ + (1 << i)` in 16-bit
arithmetic. -/
def baseKeys (own_key : Key) : List Key :=
  (List.range M).map (fun i => (own_key + 2 ^ i) % keySpace)

/-- `ChordIndex::create()`, lines 88-96. -/
def create (hash : PeerId → Key) (self : PeerId) : State :=
  let self_ : ChordPeer := ⟨self, hash self⟩
  { initialized_ := true
    own_key_ := hash self
    self_ := self_
    fingers_ := (baseKeys (hash self)).map (fun b => ⟨b, self_⟩)
    successor_ := self_
    predecessor_ := self_
    peers_ := [] }

/-- `ChordIndex::registerPeer(peer, target)`, lines 173-185.  `held` are the peers
currently referenced by the index: an identity found in the map whose object is no
longer held fails `CHECK(existing)`. -/
def registerPeer (hash : PeerId → Key) (peers : List PeerId) (held : List ChordPeer)
    (peer : PeerId) : Outcome (ChordPeer × List PeerId) :=
  if peer ∈ peers then
    match held.find? (fun p => p.id = peer) with
    | some existing => .ret (existing, peers)
    | none => .abort
  else .ret (⟨peer, hash peer⟩, peer :: peers)

/-- The finger loop of `join`, lines 100-104: for each base key ask `other` for the
successor and register the answer. -/
def joinFingers (hash : PeerId → Key) (net : Network) (hops : Nat) (other : PeerId) :
    List Key → List Finger → List PeerId → Outcome (List Finger × List PeerId)
  | [], done, peers => .ret (done, peers)
  | base_key :: rest, done, peers =>
    (findSuccessorRpc net hops other base_key).andThen fun finger =>
    (registerPeer hash peers (done.map (fun f => f.peer)) finger).andThen fun r =>
    joinFingers hash net hops other rest (done ++ [⟨base_key, r.1⟩]) r.2

/-- `notifyRpc(to, subject)` under `CHECK`: node `to` runs `handleNotify(subject)`. -/
def notifyRpc (hash : PeerId → Key) (net : Network) (to_ subject : PeerId) :
    Outcome Network :=
  match net.lookup to_ with
  | none => .abort
  | some target =>
    .ret (net.map (fun e => if e.1 = to_ then (e.1, handleNotify hash target subject) else e))

/-- `ChordIndex::join(other)`, lines 98-115, on the node `self`, in the network `net` of
the nodes that already form the ring.  The result is the network with the joined node
added and the two notified nodes updated. -/
def join (hash : PeerId → Key) (hops : Nat) (net : Network) (self other : PeerId) :
    Outcome Network :=
  let own_key := hash self
  (joinFingers hash net hops other (baseKeys own_key) [] []).andThen fun fp =>
  match fp.1.head? with
  | none => .abort
  | some finger0 =>
    let successor_ := finger0.peer
    (getPredecessorRpc net successor_.id).andThen fun predecessor =>
    if hash predecessor = own_key then .abort
    else
      (registerPeer hash fp.2 (fp.1.map (fun f => f.peer)) predecessor).andThen fun r =>
      let node : State :=
        { initialized_ := true
          own_key_ := own_key
          self_ := ⟨self, own_key⟩
          fingers_ := fp.1
          successor_ := successor_
          predecessor_ := r.1
          peers_ := r.2 }
      let net1 : Network := net ++ [(self, node)]
      (notifyRpc hash net1 node.predecessor_.id self).andThen fun net2 =>
      notifyRpc hash net2 node.successor_.id self

/-- The `join` calls of a ring under construction, in order: each pair `(self, other)`
is one `join(other)` executed on node `self`. -/
def joinAll (hash : PeerId → Key) (hops : Nat) :
    Network → List (PeerId × PeerId) → Outcome Network
  | net, [] => .ret net
  | net, (self, other) :: rest =>
    (join hash hops net self other).andThen fun net1 => joinAll hash hops net1 rest

/-- A ring built by one `create()` on `first` followed by one `join(other)` for every
pair `(self, other)` of `joins`. -/
def buildRing (hash : PeerId → Key) (hops : Nat) (first : PeerId)
    (joins : List (PeerId × PeerId)) : Outcome Network :=
  joinAll hash hops [(first, create hash first)] joins

/-- The network of a ring whose construction returned (empty otherwise). -/
def ringOf (o : Outcome Network) : Network :=
  match o with
  | .ret net => net
  | _ => []

/-- The identity stored in `successor_` of node `p`. -/
def successorOf (net : Network) (p : PeerId) : Option PeerId :=
  (net.lookup p).map (fun n => n.successor_.id)

/-- The nodes reached from `start` by following the successor pointer `steps` times, in
the order visited (a missing node ends the walk). -/
def followSuccessors (net : Network) : Nat → PeerId → List PeerId
  | 0, _ => []
  | steps + 1, start =>
    match successorOf net start with
    | none => []
    | some next => next :: followSuccessors net steps next

/-- Key assignment of the example rings: peer 1 has key 1, peer 2 has key 32774, every
other peer has key 0. -/
def hashFar : PeerId → Key := fun p => if p = 1 then 1 else if p = 2 then 32774 else 0

/-- Key assignment of the example node: peer 1 has key 1, every other peer has key 3. -/
def hashNear : PeerId → Key := fun p => if p = 1 then 1 else 3

/-- Node 1 (key 1) after `create()` and the `notify` of the joining peer 2 (key 3): its
successor is peer 2. -/
def nodeNear : State := handleNotify hashNear (create hashNear 1) 2

/-- Node 1 (key 1) after `create()` and the `notify` of the joining peer 2 (key 32774):
its successor and all its fingers are peer 2. -/
def nodeFar : State := handleNotify hashFar (create hashFar 1) 2

end ChordIndex

/-! ## Logical time, revisions, tables and chunks

`logical-time.h`, `revision.h`, `cr-table.cc` and `chunk.cc` are not among the sources;
what `chunk-transaction.cc` uses of them is modelled from the specification. -/

/-- Item and chunk identifiers (`Id`, 128 bit). -/
abbrev Id := Nat

/-- `LogicalTime`: the value of the logical clock, an unsigned counter. -/
abbrev LogicalTime := Nat

/-- Modelled from the spec: the value-initialised `LogicalTime()` (class `LogicalTime`
is missing from the sources); the counter's least value. -/
def defaultLogicalTime : LogicalTime := 0

/-- Modelled from the spec: `LogicalTime::sample()` (missing from the sources) "returns
the current value and advances it"; the result is the sampled time and the new clock. -/
def sample (clock : LogicalTime) : LogicalTime × LogicalTime := (clock, clock + 1)

/-- `Revision`: the reserved fields `id`, `insert_time`, `update_time`, the chunk the
item belongs to (`NetTable::kChunkIdField`) and the named payload fields. -/
structure Revision where
  id : Id
  chunk_id : Id
  insert_time : LogicalTime
  update_time : LogicalTime
  fields : List (String × Int)
  deriving DecidableEq, Repr

/-- `CRTable::Type`. -/
inductive TableType where
  | CR
  | CRU
  deriving DecidableEq, Repr

/-- The local table behind a chunk (`underlying_table_`): its kind and every revision
written to it, oldest first. -/
structure CRTable where
  type : TableType
  rows : List Revision
  deriving DecidableEq, Repr

/-- Modelled from the spec: the time under which a stored revision becomes visible (the
table classes are missing from the sources): its `update_time` in a CRU table, its
`insert_time` in a CR table. -/
def CRTable.stamp (type : TableType) (r : Revision) : LogicalTime :=
  match type with
  | .CR => r.insert_time
  | .CRU => r.update_time

/-- Modelled from the spec: `getById(id, time)` of the local table (missing from the
sources) "returns the latest revision with `update_time ≤ t`": among the stored
revisions of `id` stamped at or before `time`, the one with the greatest stamp. -/
def CRTable.getById (tbl : CRTable) (id : Id) (time : LogicalTime) : Option Revision :=
  tbl.rows.foldl
    (fun best r =>
      if r.id = id ∧ CRTable.stamp tbl.type r ≤ time then
        match best with
        | none => some r
        | some b => if CRTable.stamp tbl.type b ≤ CRTable.stamp tbl.type r then some r else some b
      else best)
    none

/-- Modelled from the spec: `dump(time)` of the local table (missing from the sources):
for every stored id, its revision at `time`. -/
def CRTable.dump (tbl : CRTable) (time : LogicalTime) : List (Id × Revision) :=
  (tbl.rows.map (fun r => r.id)).dedup.filterMap
    (fun id => (tbl.getById id time).map (fun r => (id, r)))

/-- Modelled from the spec: `findByRevision(key, valueHolder, time, dest)` of the local
table (missing from the sources): the rows at `time` whose field `key` equals that of
`valueHolder`; the function's return value is the number of these rows. -/
def CRTable.findByRevision (tbl : CRTable) (key : String) (valueHolder : Revision)
    (time : LogicalTime) : List (Id × Revision) :=
  (tbl.dump time).filter (fun p => p.2.fields.lookup key = valueHolder.fields.lookup key)

/-- Lock states of a chunk holder, as in the spec's state machine. -/
inductive LockState where
  | UNLOCKED
  | READ_LOCKED (n : Nat)
  | WRITE_LOCK_REQUESTED (candidate : PeerId)
  | WRITE_LOCKED (owner : PeerId)
  deriving DecidableEq, Repr

/-- A chunk as seen by a chunk transaction: its id, the local table and the lock.  The
peer set and the propagation of writes to the other holders are not modelled. -/
structure Chunk where
  id_ : Id
  underlying_table_ : CRTable
  lock_ : LockState
  deriving DecidableEq, Repr

namespace Chunk

/-- Modelled from the spec: `Chunk::isLocked()` (`chunk.cc` is missing from the
sources): the holder is read-locked or write-locked. -/
def isLocked (c : Chunk) : Bool :=
  match c.lock_ with
  | .READ_LOCKED _ => true
  | .WRITE_LOCKED _ => true
  | _ => false

/-- Modelled from the spec: `Chunk::writeLock()` (missing from the sources), on the peer
`self`: an unlocked chunk becomes `WRITE_LOCKED(self)`; in every other state the call
does not return (`none`). -/
def writeLock (self : PeerId) (c : Chunk) : Option Chunk :=
  match c.lock_ with
  | .UNLOCKED => some { c with lock_ := .WRITE_LOCKED self }
  | _ => none

/-- Modelled from the spec: `Chunk::readLock()` (missing from the sources): local only;
an unlocked chunk gets its first reader, a read-locked one a further reader; under a
write lock or a pending write-lock request the call does not return (`none`). -/
def readLock (c : Chunk) : Option Chunk :=
  match c.lock_ with
  | .UNLOCKED => some { c with lock_ := .READ_LOCKED 1 }
  | .READ_LOCKED n => some { c with lock_ := .READ_LOCKED (n + 1) }
  | _ => none

/-- Modelled from the spec: `Chunk::unlock()` (missing from the sources): a write lock
is released; a read lock loses one reader. -/
def unlock (c : Chunk) : Chunk :=
  match c.lock_ with
  | .READ_LOCKED n =>
    if n ≤ 1 then { c with lock_ := .UNLOCKED } else { c with lock_ := .READ_LOCKED (n - 1) }
  | _ => { c with lock_ := .UNLOCKED }

/-- Modelled from the spec: `Chunk::dumpItems(time, items)` (missing from the sources):
the table's revisions at `time` that belong to this chunk. -/
def dumpItems (c : Chunk) (time : LogicalTime) : List (Id × Revision) :=
  (c.underlying_table_.dump time).filter (fun p => p.2.chunk_id = c.id_)

/-- Modelled from the spec: the stamping of one item by `Chunk::bulkInsertLocked` and
the table's `bulkInsert(items, time)` (both missing from the sources): the item gets the
chunk's id and `insert_time = time`; in a CRU table `CRUTable::bulkInsertCRDerived`
(cru-table.cc, lines 104-113, `FLAGS_cru_linked` off) then sets `update_time` to a fresh
`LogicalTime::sample()`. -/
def stampInsert (c : Chunk) (time : LogicalTime) (clock : LogicalTime) (r : Revision) :
    Revision × LogicalTime :=
  match c.underlying_table_.type with
  | .CR => ({ r with chunk_id := c.id_, insert_time := time }, clock)
  | .CRU =>
    ({ r with chunk_id := c.id_, insert_time := time, update_time := (sample clock).1 },
      (sample clock).2)

/-- Modelled from the spec: the items of one bulk insert, stamped in order. -/
def stampInserts (c : Chunk) (time : LogicalTime) :
    List (Id × Revision) → LogicalTime → List (Id × Revision) × LogicalTime
  | [], clock => ([], clock)
  | item :: rest, clock =>
    let r := stampInsert c time clock item.2
    let rs := stampInserts c time rest r.2
    ((item.1, r.1) :: rs.1, rs.2)

/-- Modelled from the spec: `Chunk::bulkInsertLocked(items, time)` (missing from the
sources) writes all items locally, stamped as in `stampInsert`.  Returns the stamped
items (the caller's revisions are shared objects), the chunk and the clock. -/
def bulkInsertLocked (c : Chunk) (items : List (Id × Revision)) (time : LogicalTime)
    (clock : LogicalTime) : List (Id × Revision) × Chunk × LogicalTime :=
  let stamped := stampInserts c time items clock
  (stamped.1,
    { c with underlying_table_ :=
        { c.underlying_table_ with
          rows := c.underlying_table_.rows ++ stamped.1.map (fun p => p.2) } },
    stamped.2)

/-- Modelled from the spec: `Chunk::updateLocked(time, item)` (missing from the sources)
appends `item` to the local store as a new revision of its id, with `update_time` set to
`time` as in `CRUTable::update(query, time)` (cru-table.cc, lines 38-39 and 56,
`FLAGS_cru_linked` off).  Returns the stamped revision and the chunk. -/
def updateLocked (c : Chunk) (time : LogicalTime) (item : Revision) : Revision × Chunk :=
  let stamped : Revision := { item with update_time := time }
  (stamped,
    { c with underlying_table_ :=
        { c.underlying_table_ with rows := c.underlying_table_.rows ++ [stamped] } })

end Chunk

/-! ## Chunk transaction (`chunk-transaction.cc`) -/

/-- `ChunkTransaction::ConflictCondition`: a field name and a revision holding the
value. -/
structure ConflictCondition where
  key : String
  value_holder : Revision
  deriving DecidableEq, Repr

/-- `ChunkTransaction`: the maps `insertions_` and `updates_` are lists of pairs, read in
list order; the chunk pointer `chunk_` is passed to the operations. -/
structure ChunkTransaction where
  begin_time_ : LogicalTime
  insertions_ : List (Id × Revision)
  updates_ : List (Id × Revision)
  conflict_conditions_ : List ConflictCondition
  deriving DecidableEq, Repr

/-- `Conflict`: the stored revision (`ours`) and the staged one (`theirs`). -/
structure Conflict where
  ours : Option Revision
  theirs : Revision
  deriving DecidableEq, Repr

namespace ChunkTransaction

/-- `ChunkTransaction::prepareCheck(chunk_stamp)`, lines 152-170: the time stamp of every
id of the chunk's contents, sampled now.  With staged updates the table must be CRU
(`CHECK`) and the stamp is the stored `update_time`; without, every stamp is the
default-constructed `time`. -/
def prepareCheck (c : Chunk) (clock : LogicalTime) (t : ChunkTransaction) :
    Outcome (List (Id × LogicalTime) × LogicalTime) :=
  let contents := c.dumpItems (sample clock).1
  if t.updates_ ≠ [] then
    if c.underlying_table_.type = .CRU then
      .ret (contents.map (fun item => (item.1, item.2.update_time)), (sample clock).2)
    else .abort
  else
    .ret (contents.map (fun item => (item.1, defaultLogicalTime)), (sample clock).2)

/-- The expression `stamps[id]` of `check` and `merge`: the recorded stamp, or a
value-initialised `LogicalTime` when the map has no entry for `id`. -/
def stampAt (stamps : List (Id × LogicalTime)) (id : Id) : LogicalTime :=
  (stamps.lookup id).getD defaultLogicalTime

/-- The loop over `conflict_conditions_` of `check`, lines 96-102: each condition is
looked up at a fresh `LogicalTime::sample()`; the first one with a matching row ends the
loop with `false`. -/
def checkConflictConditions (c : Chunk) :
    List ConflictCondition → LogicalTime → Bool × LogicalTime
  | [], clock => (true, clock)
  | item :: rest, clock =>
    if (c.underlying_table_.findByRevision item.key item.value_holder (sample clock).1).length > 0
    then (false, (sample clock).2)
    else checkConflictConditions c rest (sample clock).2

/-- `ChunkTransaction::check()`, lines 78-104.  Returns the verdict and the clock. -/
def check (c : Chunk) (clock : LogicalTime) (t : ChunkTransaction) :
    Outcome (Bool × LogicalTime) :=
  if c.isLocked then
    (prepareCheck c clock t).andThen fun prepared =>
      let stamps := prepared.1
      if t.insertions_.any (fun item => (stamps.lookup item.1).isSome) then
        .ret (false, prepared.2)
      else if t.updates_.any (fun item => decide (stampAt stamps item.1 ≥ t.begin_time_)) then
        .ret (false, prepared.2)
      else .ret (checkConflictConditions c t.conflict_conditions_ prepared.2)
  else .abort

/-- The loop over `updates_` of `checkedCommit`, lines 108-110. -/
def commitUpdates (time : LogicalTime) :
    List (Id × Revision) → Chunk → List (Id × Revision) × Chunk
  | [], c => ([], c)
  | item :: rest, c =>
    let u := c.updateLocked time item.2
    let us := commitUpdates time rest u.2
    ((item.1, u.1) :: us.1, us.2)

/-- `ChunkTransaction::checkedCommit(time)`, lines 106-111.  Returns the transaction
(whose staged revisions were stamped by the writes), the chunk and the clock. -/
def checkedCommit (c : Chunk) (clock : LogicalTime) (t : ChunkTransaction)
    (time : LogicalTime) : ChunkTransaction × Chunk × LogicalTime :=
  let inserted := c.bulkInsertLocked t.insertions_ time clock
  let updated := commitUpdates time t.updates_ inserted.2.1
  ({ t with insertions_ := inserted.1, updates_ := updated.1 }, updated.2, inserted.2.2)

/-- What `commit` leaves behind: its return value, the transaction, the chunk and the
clock. -/
structure CommitResult where
  success : Bool
  transaction : ChunkTransaction
  chunk : Chunk
  clock : LogicalTime
  deriving DecidableEq, Repr

/-- `ChunkTransaction::commit()`, lines 67-76, on the peer `self`.  A chunk whose write
lock cannot be taken makes the call wait (`hang`). -/
def commit (self : PeerId) (c : Chunk) (clock : LogicalTime) (t : ChunkTransaction) :
    Outcome CommitResult :=
  match c.writeLock self with
  | none => .hang
  | some locked =>
    (check locked clock t).andThen fun verdict =>
      if verdict.1 = false then
        .ret { success := false, transaction := t, chunk := locked.unlock, clock := verdict.2 }
      else
        let time := (sample verdict.2).1
        let written := checkedCommit locked (sample verdict.2).2 t time
        .ret { success := true, transaction := written.1, chunk := written.2.1.unlock,
               clock := written.2.2 }

/-- `ChunkTransaction::getByIdFromUncommitted(id)`, lines 31-42. -/
def getByIdFromUncommitted (t : ChunkTransaction) (id : Id) : Option Revision :=
  match t.updates_.lookup id with
  | some updated => some updated
  | none => t.insertions_.lookup id

/-- `std::unordered_map::insert` on a map kept as a list of pairs: an entry whose key is
already present is not inserted. -/
def mapInsert (m : List (Id × Revision)) (entry : Id × Revision) : List (Id × Revision) :=
  if (m.lookup entry.1).isSome then m else m ++ [entry]

/-- `ChunkTransaction::getById(id)`, lines 20-29, as far as its result goes: the staged
revision if there is one, else the table's revision at `begin_time_` (read under the
read lock, which is released again). -/
def getById (c : Chunk) (t : ChunkTransaction) (id : Id) : Option Revision :=
  match getByIdFromUncommitted t id with
  | some staged => some staged
  | none => c.underlying_table_.getById id t.begin_time_

/-- The loop over `insertions_` of `merge`, lines 130-134: an id that is already in the
chunk fails the `CHECK`, otherwise the insertion is moved into the merge transaction. -/
def mergeInsertions (stamps : List (Id × LogicalTime)) :
    List (Id × Revision) → ChunkTransaction → Outcome ChunkTransaction
  | [], merged => .ret merged
  | entry :: rest, merged =>
    CHECK (!(stamps.lookup entry.1).isSome)
      (mergeInsertions stamps rest
        { merged with insertions_ := mapInsert merged.insertions_ entry })

/-- The loop over `updates_` of `merge`, lines 135-142: an update whose stamp is at least
`begin_time` yields a conflict whose `ours` is what the merge transaction reads for the
id, every other update is moved into the merge transaction. -/
def mergeUpdates (c : Chunk) (stamps : List (Id × LogicalTime)) (begin_time : LogicalTime) :
    List (Id × Revision) → ChunkTransaction → List Conflict → ChunkTransaction × List Conflict
  | [], merged, conflicts => (merged, conflicts)
  | entry :: rest, merged, conflicts =>
    if stampAt stamps entry.1 ≥ begin_time then
      mergeUpdates c stamps begin_time rest merged
        (conflicts ++ [{ ours := getById c merged entry.1, theirs := entry.2 }])
    else
      mergeUpdates c stamps begin_time rest
        { merged with updates_ := mapInsert merged.updates_ entry } conflicts

/-- The part of `merge` after `CHECK(false)`, lines 126-143, under the read lock. -/
def mergeBody (c : Chunk) (clock : LogicalTime) (t : ChunkTransaction) (time : LogicalTime) :
    Outcome (ChunkTransaction × List Conflict) :=
  match c.readLock with
  | none => .hang
  | some locked =>
    (prepareCheck locked clock t).andThen fun prepared =>
    (mergeInsertions prepared.1 t.insertions_
      { begin_time_ := time, insertions_ := [], updates_ := [],
        conflict_conditions_ := [] }).andThen fun merged =>
    .ret (mergeUpdates locked prepared.1 t.begin_time_ t.updates_ merged [])

/-- `ChunkTransaction::merge(time, merge_transaction, conflicts)`, lines 113-144: the
`CHECK` that there are no conflict conditions, the construction of the merge transaction
(whose constructor has `CHECK(begin_time < LogicalTime::sample())`), then `CHECK(false)`
in front of the body. -/
def merge (c : Chunk) (clock : LogicalTime) (t : ChunkTransaction) (time : LogicalTime) :
    Outcome (ChunkTransaction × List Conflict) :=
  CHECK (decide (t.conflict_conditions_ = [])) <|
  CHECK (decide (time < (sample clock).1)) <|
  CHECK false <|
  mergeBody c (sample clock).2 t time

/-! ### The conditions of `check` in words, and example data -/

/-- A revision with the payload field `n`. -/
def rev (id : Id) (n : Int) : Revision :=
  { id := id, chunk_id := 42, insert_time := 0, update_time := 0, fields := [("n", n)] }

/-- An unlocked CRU chunk that holds the item 7, inserted at time 3. -/
def chunkWithSeven : Chunk :=
  { id_ := 42,
    underlying_table_ :=
      { type := .CRU,
        rows := [{ id := 7, chunk_id := 42, insert_time := 3, update_time := 4,
                   fields := [("n", 1)] }] },
    lock_ := .UNLOCKED }

/-- A transaction that stages the insertion of id 7 again and an update of id 7. -/
def collidingTransaction : ChunkTransaction :=
  { begin_time_ := 6, insertions_ := [(7, rev 7 2)], updates_ := [(7, rev 7 3)],
    conflict_conditions_ := [] }

/-- A transaction that stages the insertion of id 8 and an update of id 7, under the
condition that no row has `n = 5`. -/
def passingTransaction : ChunkTransaction :=
  { begin_time_ := 6, insertions_ := [(8, rev 8 2)], updates_ := [(7, rev 7 3)],
    conflict_conditions_ := [{ key := "n", value_holder := rev 0 5 }] }

end ChunkTransaction

/-! ## Raft cluster (`raft.cc`) -/

namespace RaftCluster

/-- `RaftCluster::State`. -/
inductive State where
  | FOLLOWER
  | CANDIDATE
  | LEADER
  deriving DecidableEq, Repr

/-- The members of `RaftCluster` guarded by `state_mutex_`, and `follower_handler_run_`.
`current_term_` is a `uint64_t`. -/
structure Peer where
  state_ : State
  current_term_ : Nat
  is_leader_known_ : Bool
  leader_id_ : PeerId
  follower_handler_run_ : Bool
  deriving DecidableEq, Repr

/-- The constructor `RaftCluster::RaftCluster()`, lines 27-37. -/
def Peer.initial : Peer :=
  { state_ := .FOLLOWER, current_term_ := 0, is_leader_known_ := false, leader_id_ := 0,
    follower_handler_run_ := false }

/-- The locals `leader_id`, `state`, `current_term`, `leader_known` that `handleHearbeat`
copies under `state_mutex_`, lines 100-105, before it releases the mutex. -/
structure Snapshot where
  leader_id : PeerId
  state : State
  current_term : Nat
  leader_known : Bool
  deriving DecidableEq, Repr

/-- First critical section of `handleHearbeat`, lines 100-105. -/
def readState (p : Peer) : Snapshot :=
  { leader_id := p.leader_id_, state := p.state_, current_term := p.current_term_,
    leader_known := p.is_leader_known_ }

/-- The rest of `handleHearbeat`, lines 107-143: the decisions are taken on the snapshot,
the assignments (second critical section, lines 115-123) go to the peer as it is then.
`abort` is the `LOG(FATAL)` of line 131. -/
def applyHeartbeat (snap : Snapshot) (hb_sender : PeerId) (hb_term : Nat) (p : Peer) :
    Outcome Peer :=
  let sender_changed :=
    !snap.leader_known || hb_sender != snap.leader_id || hb_term != snap.current_term
  if sender_changed then
    if decide (hb_term > snap.current_term)
        || (hb_term == snap.current_term && !snap.leader_known) then
      .ret { p with
        current_term_ := hb_term
        leader_id_ := hb_sender
        is_leader_known_ := true
        state_ := if snap.state = .LEADER then .FOLLOWER else p.state_
        follower_handler_run_ :=
          if snap.state = .LEADER then false else p.follower_handler_run_ }
    else if snap.state == .FOLLOWER && hb_term == snap.current_term
        && hb_sender != snap.leader_id && decide (snap.current_term > 0)
        && snap.leader_known then
      .abort
    else .ret p
  else .ret p

/-- `RaftCluster::handleHearbeat`, lines 90-144, run without any other thread touching
the peer between its two critical sections. -/
def handleHearbeat (p : Peer) (hb_sender : PeerId) (hb_term : Nat) : Outcome Peer :=
  applyHeartbeat (readState p) hb_sender hb_term p

/-- `RaftCluster::handleRequestVote`, lines 146-174: the peer afterwards and the vote of
the response. -/
def handleRequestVote (p : Peer) (req_term : Nat) : Peer × Bool :=
  if req_term > p.current_term_ then
    ({ p with
        current_term_ := req_term
        is_leader_known_ := false
        follower_handler_run_ := if p.state_ = .LEADER then false else p.follower_handler_run_
        state_ := .FOLLOWER },
      true)
  else (p, false)

/-- The locals of a running `conductElection`: the term it asks votes for, `num_votes`
(a `uint16_t`) and the peers whose response is still outstanding. -/
structure Election where
  term : Nat
  num_votes : Nat
  pending : List PeerId
  deriving DecidableEq, Repr

/-- First critical section of `conductElection`, lines 271-275: become candidate,
`++current_term_` (64-bit), forget the leader. -/
def electionStart (p : Peer) : Peer :=
  { p with
    state_ := .CANDIDATE
    current_term_ := (p.current_term_ + 1) % 2 ^ 64
    is_leader_known_ := false }

/-- Second critical section of `conductElection`, lines 294-305, for the peer `self`
with `peer_list_size` other peers. -/
def electionFinish (self : PeerId) (peer_list_size : Nat) (num_votes : Nat) (p : Peer) :
    Peer :=
  if p.state_ = .CANDIDATE ∧ num_votes ≥ peer_list_size / 2 then
    { p with state_ := .LEADER, is_leader_known_ := true, leader_id_ := self }
  else
    { p with state_ := .FOLLOWER, is_leader_known_ := false }

/-- One peer of the cluster: its `RaftCluster` object, the election its heartbeat thread
is conducting (if any), and the heartbeats whose handler has read the state but not yet
written it (snapshot, sender, term). -/
structure Node where
  peer : Peer
  election : Option Election
  heartbeats : List (Snapshot × PeerId × Nat)
  deriving DecidableEq, Repr

/-- The cluster: peer `i` is the `i`-th node; its `peer_list_` are the other indices. -/
abbrev Cluster := List Node

/-- `N` freshly constructed peers. -/
def Cluster.initial (N : Nat) : Cluster :=
  List.replicate N { peer := Peer.initial, election := none, heartbeats := [] }

/-- The `peer_list_` of peer `i` in a cluster of `N` peers: the other `N - 1` peers. -/
def peerList (N : Nat) (i : PeerId) : List PeerId :=
  (List.range N).filter (fun j => j ≠ i)

/-- The atomic steps of the cluster: each is one critical section under a peer's
`state_mutex_`, or one vote request handled by its receiver. -/
inductive Event where
  /-- peer `i` enters `conductElection` (lines 270-285) -/
  | electionStart (i : PeerId)
  /-- the vote request of candidate `i` is handled by peer `j` (`handleRequestVote`) and
  the response is counted (lines 286-292) -/
  | requestVote (i j : PeerId)
  /-- the vote request of candidate `i` to peer `j` fails (`FAILED_REQUEST`) -/
  | requestFails (i j : PeerId)
  /-- peer `i` leaves `conductElection` (lines 294-305) -/
  | electionFinish (i : PeerId)
  /-- a heartbeat of the leader `sender` reaches peer `i`, whose handler reads the state
  (lines 96-105) -/
  | heartbeatRead (i sender : PeerId)
  /-- the oldest waiting heartbeat handler of peer `i` runs to its end (lines 107-143) -/
  | heartbeatApply (i : PeerId)
  deriving DecidableEq, Repr

/-- One step of the cluster; `none` when the event is not enabled in the state or the
peer aborts. -/
def step (c : Cluster) : Event → Option Cluster
  | .electionStart i =>
    match c.get? i with
    | none => none
    | some n =>
      if n.election.isNone ∧ n.peer.state_ = .FOLLOWER then
        let p := electionStart n.peer
        some (c.set i { n with
          peer := p
          election := some { term := p.current_term_, num_votes := 0,
                             pending := peerList c.length i } })
      else none
  | .requestVote i j =>
    match c.get? i, c.get? j with
    | some n, some m =>
      match n.election with
      | none => none
      | some e =>
        if j ∈ e.pending then
          let r := handleRequestVote m.peer e.term
          let e1 : Election :=
            { e with num_votes := if r.2 then (e.num_votes + 1) % 2 ^ 16 else e.num_votes,
                     pending := e.pending.erase j }
          some ((c.set j { m with peer := r.1 }).set i { n with election := some e1 })
        else none
    | _, _ => none
  | .requestFails i j =>
    match c.get? i with
    | none => none
    | some n =>
      match n.election with
      | none => none
      | some e =>
        if j ∈ e.pending then
          some (c.set i { n with election := some { e with pending := e.pending.erase j } })
        else none
  | .electionFinish i =>
    match c.get? i with
    | none => none
    | some n =>
      match n.election with
      | none => none
      | some e =>
        if e.pending = [] then
          some (c.set i { n with
            peer := electionFinish i (peerList c.length i).length e.num_votes n.peer
            election := none })
        else none
  | .heartbeatRead i sender =>
    match c.get? i, c.get? sender with
    | some n, some s =>
      if s.peer.state_ = .LEADER ∧ sender ≠ i then
        some (c.set i { n with
          heartbeats := n.heartbeats ++ [(readState n.peer, sender, s.peer.current_term_)] })
      else none
    | _, _ => none
  | .heartbeatApply i =>
    match c.get? i with
    | none => none
    | some n =>
      match n.heartbeats with
      | [] => none
      | hb :: rest =>
        match applyHeartbeat hb.1 hb.2.1 hb.2.2 n.peer with
        | .ret p => some (c.set i { n with peer := p, heartbeats := rest })
        | _ => none

/-- The cluster after a sequence of steps. -/
def run (c : Cluster) : List Event → Option Cluster
  | [] => some c
  | e :: rest =>
    match step c e with
    | none => none
    | some c1 => run c1 rest

/-- The states reachable from `N` freshly constructed peers. -/
def Reachable (N : Nat) (c : Cluster) : Prop :=
  ∃ events, run (Cluster.initial N) events = some c

/-- State and term of every peer. -/
def view (c : Cluster) : List (State × Nat) :=
  c.map (fun n => (n.peer.state_, n.peer.current_term_))

end RaftCluster

/-! ## Chord index: further example data -/

namespace ChordIndex

/-- Key assignment of the example node with an exact finger: peer 1 has key 1, peer 2
has key 3, every other peer has key 100. -/
def hashExact : PeerId → Key := fun p => if p = 1 then 1 else if p = 2 then 3 else 100

/-- Node 1 (key 1) after `create()` and the `notify` of peer 2 (key 3): its finger 1 has
base key 3 and peer 2, whose key is the base key. -/
def nodeExact : State := handleNotify hashExact (create hashExact 1) 2

end ChordIndex

/-! ## Raft cluster: further example data -/

namespace RaftCluster

/-- A peer that is candidate of term 1 (inside `conductElection`). -/
def candidateOfTermOne : Peer :=
  { state_ := .CANDIDATE, current_term_ := 1, is_leader_known_ := false, leader_id_ := 0,
    follower_handler_run_ := false }

end RaftCluster

/-! ## Net table: routing of chunk requests (`net-table.cc`) -/

namespace NetTable

/-- `Message`: its type string and its payload. -/
structure Message where
  type : String
  serialized : String
  deriving DecidableEq, Repr

/-- `Message::kAck`, message.cc. -/
def kAck : String := "map_api_msg_ack"

/-- `Message::kDecline`, message.cc. -/
def kDecline : String := "map_api_msg_decline"

/-- Modelled from the spec: `Message::impose<kDecline>()` (`message.h` is missing from
the sources) makes the message a `DECLINE` response without payload. -/
def Message.decline (_ : Message) : Message := { type := kDecline, serialized := "" }

/-- The chunk requests that `NetTable` routes, with the arguments handed to the chunk. -/
inductive ChunkRequest where
  | connect (peer : PeerId)
  | insert (item : Revision)
  | leave (leaver : PeerId)
  | lock (locker : PeerId)
  | newPeer (peer sender : PeerId)
  | unlock (locker : PeerId)
  | update (item : Revision) (sender : PeerId)
  deriving DecidableEq, Repr

/-- What a handler does besides computing its result, in order: operations on
`active_chunks_lock_`, the lookup in `active_chunks_`, and the call of a chunk's
handler. -/
inductive Effect where
  | readLock
  | unlock
  | find (chunk_id : Id)
  | chunkHandler (chunk_id : Id) (request : ChunkRequest)
  deriving DecidableEq, Repr

/-- The members of `NetTable` that the request handlers use: the map `active_chunks_`
and the number of readers holding `active_chunks_lock_`. -/
structure State where
  active_chunks_ : List (Id × Chunk)
  active_chunks_lock_ : Nat
  deriving DecidableEq, Repr

/-- The handlers of `Chunk` (`chunk.cc` is missing from the sources) are a parameter:
given the request, the chunk and the response they return the chunk and the response. -/
abbrev ChunkHandlers := ChunkRequest → Chunk → Message → Chunk × Message

/-- What a request handler leaves behind. -/
structure Handled where
  state : State
  response : Message
  effects : List Effect
  deriving DecidableEq, Repr

/-- `NetTable::routingBasics(chunk_id, response, found)`, lines 296-306: `none` for the
response is a null pointer; the result is the return value, the response and `*found`. -/
def routingBasics (s : State) (chunk_id : Id) (response : Option Message) :
    Outcome (Bool × Message × Option Chunk) :=
  match response with
  | none => .abort
  | some m =>
    match s.active_chunks_.lookup chunk_id with
    | none => .ret (false, m.decline, none)
    | some found => .ret (true, m, some found)

/-- The body shared by the request handlers, lines 203-288: the read lock on
`active_chunks_` (when the handler takes it), `routingBasics`, the call of the found
chunk's handler, and the unlock. -/
def routeToChunk (handlers : ChunkHandlers) (takes_lock : Bool) (s : State) (chunk_id : Id)
    (request : ChunkRequest) (response : Option Message) : Outcome Handled :=
  let locked : State :=
    if takes_lock then { s with active_chunks_lock_ := s.active_chunks_lock_ + 1 } else s
  (routingBasics locked chunk_id response).andThen fun routed =>
    let before := (if takes_lock then [Effect.readLock] else []) ++ [Effect.find chunk_id]
    let after := if takes_lock then [Effect.unlock] else []
    let unlocked (t : State) : State :=
      if takes_lock then { t with active_chunks_lock_ := t.active_chunks_lock_ - 1 } else t
    match routed.2.2 with
    | none =>
      .ret { state := unlocked locked, response := routed.2.1, effects := before ++ after }
    | some found =>
      let handled := handlers request found routed.2.1
      .ret { state := unlocked { locked with
                active_chunks_ := locked.active_chunks_.map
                  (fun e => if e.1 = chunk_id then (e.1, handled.1) else e) }
             response := handled.2
             effects := before ++ [Effect.chunkHandler chunk_id request] ++ after }

/-- `NetTable::handleConnectRequest`, lines 203-211. -/
def handleConnectRequest (handlers : ChunkHandlers) (s : State) (chunk_id : Id)
    (peer : PeerId) (response : Option Message) : Outcome Handled :=
  routeToChunk handlers true s chunk_id (.connect peer) response

/-- `NetTable::handleInsertRequest`, lines 230-238. -/
def handleInsertRequest (handlers : ChunkHandlers) (s : State) (chunk_id : Id)
    (item : Revision) (response : Option Message) : Outcome Handled :=
  routeToChunk handlers true s chunk_id (.insert item) response

/-- `NetTable::handleLeaveRequest`, lines 240-248. -/
def handleLeaveRequest (handlers : ChunkHandlers) (s : State) (chunk_id : Id)
    (leaver : PeerId) (response : Option Message) : Outcome Handled :=
  routeToChunk handlers true s chunk_id (.leave leaver) response

/-- `NetTable::handleLockRequest`, lines 250-258. -/
def handleLockRequest (handlers : ChunkHandlers) (s : State) (chunk_id : Id)
    (locker : PeerId) (response : Option Message) : Outcome Handled :=
  routeToChunk handlers true s chunk_id (.lock locker) response

/-- `NetTable::handleNewPeerRequest`, lines 260-269. -/
def handleNewPeerRequest (handlers : ChunkHandlers) (s : State) (chunk_id : Id)
    (peer sender : PeerId) (response : Option Message) : Outcome Handled :=
  routeToChunk handlers true s chunk_id (.newPeer peer sender) response

/-- `NetTable::handleUnlockRequest`, lines 271-279. -/
def handleUnlockRequest (handlers : ChunkHandlers) (s : State) (chunk_id : Id)
    (locker : PeerId) (response : Option Message) : Outcome Handled :=
  routeToChunk handlers true s chunk_id (.unlock locker) response

/-- `NetTable::handleUpdateRequest`, lines 281-288: the only handler that does not take
`active_chunks_lock_`. -/
def handleUpdateRequest (handlers : ChunkHandlers) (s : State) (chunk_id : Id)
    (item : Revision) (sender : PeerId) (response : Option Message) : Outcome Handled :=
  routeToChunk handlers false s chunk_id (.update item sender) response

/-- The handler that serves a request. -/
def handle (handlers : ChunkHandlers) (s : State) (chunk_id : Id) (request : ChunkRequest)
    (response : Option Message) : Outcome Handled :=
  match request with
  | .connect peer => handleConnectRequest handlers s chunk_id peer response
  | .insert item => handleInsertRequest handlers s chunk_id item response
  | .leave leaver => handleLeaveRequest handlers s chunk_id leaver response
  | .lock locker => handleLockRequest handlers s chunk_id locker response
  | .newPeer peer sender => handleNewPeerRequest handlers s chunk_id peer sender response
  | .unlock locker => handleUnlockRequest handlers s chunk_id locker response
  | .update item sender => handleUpdateRequest handlers s chunk_id item sender response

/-- Chunk handlers of the examples: the chunk is left as it is and the request is
acknowledged. -/
def ackHandlers : ChunkHandlers := fun _ c _ => (c, { type := kAck, serialized := "" })

/-- A table that holds the chunk 42 only. -/
def tableWithChunk : State :=
  { active_chunks_ :=
      [(42, { id_ := 42, underlying_table_ := { type := .CRU, rows := [] },
              lock_ := .UNLOCKED })],
    active_chunks_lock_ := 0 }

end NetTable

/-! ## CRU table (`cru-table.cc`) -/

namespace CRUTable

/-- Modelled from the spec: the value-initialised `Id()` (class `Id` is missing from the
sources), which no item carries. -/
def invalidId : Id := 0

/-- `CRUTable::kPreviousTimeField`. -/
def kPreviousTimeField : String := "previous_time"

/-- `CRUTable::kNextTimeField`. -/
def kNextTimeField : String := "next_time"

/-- Modelled from the spec: `Revision::structureMatch` (`revision.h` is missing from the
sources): two revisions match when they have the same field layout. -/
def structureMatch (reference query : Revision) : Bool :=
  decide (reference.fields.map (fun f => f.1) = query.fields.map (fun f => f.1))

/-- Modelled from the spec: `Revision::set(key, value)` for a named field (`revision.h`
is missing from the sources): the field's value is replaced. -/
def setField (r : Revision) (key : String) (value : Int) : Revision :=
  { r with fields := r.fields.map (fun f => if f.1 = key then (f.1, value) else f) }

/-- `insertUpdatedCRUDerived(query)`, pure virtual in `cru-table.h` (line 100,
"Implement insertion of the updated revision"): the store of the derived class is a
parameter of `update`.  Given the table and the revision handed over it yields the table
afterwards, or `none` when it reports `false`. -/
abbrev DerivedStore := CRTable → Revision → Option CRTable

/-- Modelled from the spec: `updateCurrentReferToUpdatedCRUDerived(id, previous_time,
update_time)` (its implementation is missing from the sources): the revision of `id`
stamped `previous_time` gets `update_time` as its `next_time`. -/
def updateCurrentReferToUpdatedCRUDerived (tbl : CRTable) (id : Id)
    (previous_time update_time : LogicalTime) : CRTable :=
  { tbl with rows := tbl.rows.map (fun r =>
      if r.id = id ∧ r.update_time = previous_time then
        setField r kNextTimeField (Int.ofNat update_time)
      else r) }

/-- The linked branch of `CRUTable::update` behind its `CHECK(false)`, lines 45-53 and
56-61: the insert times must agree, the stored update time must be earlier, the query is
linked to its predecessor, handed to the derived store (whose result is `CHECK`ed), and
the predecessor is made to refer to it. -/
def updateLinked (insertUpdatedCRUDerived : DerivedStore) (tbl : CRTable) (query : Revision)
    (id : Id) (time : LogicalTime) (current : Option Revision) :
    Outcome (CRTable × Revision) :=
  match current with
  | none => .abort
  | some current =>
    CHECK (decide (current.insert_time = query.insert_time)) <|
    CHECK (decide (current.update_time < time)) <|
      let linked :=
        setField (setField query kPreviousTimeField (Int.ofNat current.update_time))
          kNextTimeField (Int.ofNat defaultLogicalTime)
      match insertUpdatedCRUDerived tbl linked with
      | none => .abort
      | some stored =>
        .ret (updateCurrentReferToUpdatedCRUDerived stored id current.update_time time,
              linked)

/-- `CRUTable::update(query, time)`, lines 29-62.  `cru_linked` is `FLAGS_cru_linked`,
`initialized` is `isInitialized()`, `reference` is `getTemplate()`,
`insertUpdatedCRUDerived` is the derived class's store, `none` for the query is a null
pointer.  With the flag off the query is stamped with `time` and handed to the derived
store at once (line 56), whose result is `CHECK`ed.  Returns the table and the query as
stamped. -/
def update (cru_linked initialized : Bool) (reference : Revision)
    (insertUpdatedCRUDerived : DerivedStore) (tbl : CRTable)
    (query : Option Revision) (time : LogicalTime) : Outcome (CRTable × Revision) :=
  match query with
  | none => .abort
  | some query =>
    CHECK initialized <|
    CHECK (structureMatch reference query) <|
    CHECK (decide (query.id ≠ invalidId)) <|
      let stamped : Revision := { query with update_time := time }
      if cru_linked then
        CHECK false <|
          updateLinked insertUpdatedCRUDerived tbl stamped query.id time
            (tbl.getById query.id time)
      else
        match insertUpdatedCRUDerived tbl stamped with
        | none => .abort
        | some stored => .ret (stored, stamped)

/-- The contract of a derived store in the words of `cru-table.h` ("insertion of the
updated revision") and of the specification (the local store "appends a new revision",
revisions are "keyed by `(id, update_time)`"): a revision whose key `(id, update_time)`
is not stored yet is accepted and appended.  Nothing is said about a key that is stored
already. -/
def InsertsNewKeys (store : DerivedStore) : Prop :=
  ∀ (tbl : CRTable) (r : Revision),
    (∀ s ∈ tbl.rows, s.id = r.id → s.update_time ≠ r.update_time) →
    store tbl r = some { tbl with rows := tbl.rows ++ [r] }

/-- Modelled from the spec: an example of a local store "keyed by `(id, update_time)`"
(the derived table classes are missing from the sources): a revision with a new key is
appended, a revision whose key is stored already is refused. -/
def keyedStore : DerivedStore := fun tbl r =>
  if tbl.rows.any (fun s => decide (s.id = r.id ∧ s.update_time = r.update_time)) then none
  else some { tbl with rows := tbl.rows ++ [r] }

/-- The `update_time` values of the stored revisions of `id`, in insertion order. -/
def updateTimes (tbl : CRTable) (id : Id) : List LogicalTime :=
  (tbl.rows.filter (fun r => r.id = id)).map (fun r => r.update_time)

/-- A CRU table that holds item 7 with update time 4. -/
def tableWithSeven : CRTable :=
  { type := .CRU,
    rows := [{ id := 7, chunk_id := 42, insert_time := 3, update_time := 4,
               fields := [("n", 1)] }] }

/-- A new value for item 7. -/
def sevenUpdated : Revision :=
  { id := 7, chunk_id := 42, insert_time := 3, update_time := 4, fields := [("n", 2)] }

end CRUTable

/-! ## Chunk transaction: staging and reading -/

namespace ChunkTransaction

/-- `ChunkTransaction::insert(revision)`, lines 50-56.  `structure_reference` is
`structure_reference_`, the template of the chunk's table; `none` for the revision is a
null pointer.  The last `CHECK` fails when `insertions_` has an entry for the id. -/
def insert (structure_reference : Revision) (t : ChunkTransaction)
    (revision : Option Revision) : Outcome ChunkTransaction :=
  match revision with
  | none => .abort
  | some revision =>
    CHECK (CRUTable.structureMatch revision structure_reference) <|
    CHECK (!(t.insertions_.lookup revision.id).isSome) <|
      .ret { t with insertions_ := mapInsert t.insertions_ (revision.id, revision) }

/-- `ChunkTransaction::update(revision)`, lines 58-65.  `table_type` is
`chunk_->underlying_table_->type()`.  The last `CHECK` fails when `updates_` has an entry
for the id. -/
def update (structure_reference : Revision) (table_type : TableType) (t : ChunkTransaction)
    (revision : Option Revision) : Outcome ChunkTransaction :=
  match revision with
  | none => .abort
  | some revision =>
    CHECK (CRUTable.structureMatch revision structure_reference) <|
    CHECK (decide (table_type = .CRU)) <|
    CHECK (!(t.updates_.lookup revision.id).isSome) <|
      .ret { t with updates_ := mapInsert t.updates_ (revision.id, revision) }

/-- The calls that `getById` makes on the chunk. -/
inductive ChunkCall where
  | readLock
  | tableGetById (id : Id) (time : LogicalTime)
  | unlock
  deriving DecidableEq, Repr

/-- `ChunkTransaction::getById(id)`, lines 20-29, with the chunk and the calls made on
it: the result, the chunk afterwards and the calls in order.  A read lock that cannot be
taken makes the call wait (`hang`). -/
def getByIdWithCalls (c : Chunk) (t : ChunkTransaction) (id : Id) :
    Outcome (Option Revision × Chunk × List ChunkCall) :=
  match getByIdFromUncommitted t id with
  | some result => .ret (some result, c, [])
  | none =>
    match c.readLock with
    | none => .hang
    | some locked =>
      .ret (locked.underlying_table_.getById id t.begin_time_, locked.unlock,
        [.readLock, .tableGetById id t.begin_time_, .unlock])

/-- A transaction begun at time 6 that stages an update of id 7 and nothing else. -/
def updateOnly : ChunkTransaction :=
  { begin_time_ := 6, insertions_ := [], updates_ := [(7, rev 7 3)],
    conflict_conditions_ := [] }

/-- A transaction begun at time 3 that stages nothing. -/
def emptyTransaction : ChunkTransaction :=
  { begin_time_ := 3, insertions_ := [], updates_ := [], conflict_conditions_ := [] }

/-- An unlocked CRU chunk that holds item 7 in two revisions, of update times 2 and 5. -/
def chunkWithHistory : Chunk :=
  { id_ := 42,
    underlying_table_ :=
      { type := .CRU,
        rows := [{ id := 7, chunk_id := 42, insert_time := 1, update_time := 2,
                   fields := [("n", 1)] },
                 { id := 7, chunk_id := 42, insert_time := 1, update_time := 5,
                   fields := [("n", 2)] }] },
    lock_ := .UNLOCKED }

end ChunkTransaction

/-! ## Chord index: references to peers, and the scan of the fingers in words -/

namespace ChordIndex

/-- Some finger, the successor or the predecessor of the node refers to peer `p`. -/
def refersTo (n : State) (p : PeerId) : Bool :=
  n.fingers_.any (fun f => decide (f.peer.id = p)) || decide (n.successor_.id = p)
    || decide (n.predecessor_.id = p)

/-- The open arc of the specification: `x` lies strictly between `a` and `b` on the
ring, clockwise from `a`, both ends excluded. -/
def strictlyBetween (x a b : Key) : Bool :=
  if a < b then decide (a < x ∧ x < b) else decide ((a < x ∨ x < b) ∧ x ≠ a ∧ x ≠ b)

/-- The closest preceding finger as the specification words it: the peer of the finger
of the largest index whose peer key lies strictly between `own_key` and `key`. -/
def closestPrecedingFingerInWords (n : State) (key : Key) : Option ChordPeer :=
  (n.fingers_.reverse.find? (fun f => strictlyBetween f.peer.key n.own_key_ key)).map
    (fun f => f.peer)

/-- Key assignment of the example with a displaced peer: peer 1 has key 1, peer 2 has
key 4, peer 3 has key 3, every other peer has key 100. -/
def hashCrowd : PeerId → Key :=
  fun p => if p = 1 then 1 else if p = 2 then 4 else if p = 3 then 3 else 100

/-- Node 1 (key 1) after `create()` and the `notify` of peer 2 (key 4). -/
def nodeCrowdTwo : State := handleNotify hashCrowd (create hashCrowd 1) 2

/-- The same node after the further `notify` of peer 3 (key 3) and of peer 4 (key 100). -/
def nodeCrowd : State := handleNotify hashCrowd (handleNotify hashCrowd nodeCrowdTwo 3) 4

end ChordIndex

/-! ## Raft cluster: a run with a delayed heartbeat -/

namespace RaftCluster

/-- A cluster of 5 peers: peer 0 is elected leader of term 1 by all others, and the
handler of its first heartbeat at peer 3 has read the state of peer 3 (term 1, no known
leader) but not yet written. -/
def delayedHeartbeat : List Event :=
  [.electionStart 0, .requestVote 0 1, .requestVote 0 2, .requestVote 0 3, .requestVote 0 4,
   .electionFinish 0, .heartbeatRead 3 0]

/-- Peers 1 and 2 become candidates of term 2; peer 3 handles the request of peer 1, the
waiting heartbeat handler of peer 3 then writes, and peer 3 handles the request of
peer 2. -/
def twoRequestsAroundWrite : List Event :=
  [.electionStart 1, .electionStart 2, .requestVote 1 3, .heartbeatApply 3, .requestVote 2 3]

/-- The remaining requests of the two candidates and the end of both elections. -/
def bothElectionsEnd : List Event :=
  [.requestVote 1 0, .requestVote 2 4, .requestVote 1 4, .requestVote 1 2, .requestVote 2 0,
   .requestVote 2 1, .electionFinish 1, .electionFinish 2]

/-- The running election of every peer: its term and its votes so far. -/
def elections (c : Cluster) : List (Option (Nat × Nat)) :=
  c.map (fun n => n.election.map (fun e => (e.term, e.num_votes)))

end RaftCluster

/-! ## Net table: updates (`net-table.cc`) -/

namespace NetTable

/-- `NetTable::update(query)`, lines 98-105.  `type_` is the table's type; `getChunk`
(lines 70-89, which needs the index and the hub) and `Chunk::update` (`chunk.cc` is
missing from the sources) are parameters; `none` for the query or for the chunk is a
null pointer.  Returns the return value and the chunk as updated. -/
def update (type_ : TableType) (getChunk : Id → Outcome (Option Chunk))
    (chunkUpdate : Chunk → Revision → Outcome Chunk) (query : Option Revision) :
    Outcome (Bool × Chunk) :=
  match query with
  | none => .abort
  | some query =>
    CHECK (decide (type_ = .CRU)) <|
    (getChunk query.chunk_id).andThen fun found =>
      match found with
      | none => .abort
      | some chunk => (chunkUpdate chunk query).andThen fun updated => .ret (true, updated)

end NetTable

/-! ## CRU table: linked revisions -/

namespace CRUTable

/-- A revision of item 7 with the fields of the linked mode. -/
def linkedSeven (n : Int) (update_time : LogicalTime) : Revision :=
  { id := 7, chunk_id := 42, insert_time := 3, update_time := update_time,
    fields := [("n", n), (kPreviousTimeField, 0), (kNextTimeField, 0)] }

/-- A CRU table of the linked mode that holds item 7 with update time 4. -/
def linkedTableWithSeven : CRTable := { type := .CRU, rows := [linkedSeven 1 4] }

end CRUTable

/-! ## History table (`history.cc`) -/

namespace History

/-- `Hash`: the key of a row. -/
abbrev Hash := Nat

/-- `Time`. -/
abbrev Time := Nat

/-- A row of the history table with the fields of `History::define`, lines 19-24; the
field `revision` holds the serialised revision. -/
structure Row where
  rowId : Hash
  previous : Hash
  revision : String
  time : Time
  deriving DecidableEq, Repr

/-- The history table: its rows under their own keys. -/
abbrev Table := List (Hash × Row)

/-- Modelled from the spec: `getRow(id)` of the table interface (missing from the
sources): the row stored under `id`, a null pointer (`none`) when there is none. -/
def getRow (tbl : Table) (id : Hash) : Option Row := tbl.lookup id

/-- `History::insert(revision, previous)`, lines 26-33.  `now` is the value of `Time()`,
`key` the key that `insertQuery` (missing from the sources) gives the new row and
returns; `revisionId` is `revision["ID"]` and `revision` the serialised revision. -/
def insert (tbl : Table) (now : Time) (key : Hash) (revisionId : Hash) (revision : String)
    (previous : Hash) : Table × Hash :=
  (tbl ++ [(key, { rowId := revisionId, previous := previous, revision := revision,
                   time := now })], key)

/-- The loop of `History::revisionAt`, lines 41-46, started at `row`: follows `previous`
while the row's time is later than `time`; `none` is the null pointer returned when a
`previous` row does not exist.  `fuel` bounds the number of rows followed. -/
def chainEntryAt (tbl : Table) : Nat → Row → Time → Outcome (Option Row)
  | 0, row, time => if row.time > time then .hang else .ret (some row)
  | fuel + 1, row, time =>
    if row.time > time then
      match getRow tbl row.previous with
      | none => .ret none
      | some previous => chainEntryAt tbl fuel previous time
    else .ret (some row)

/-- `History::revisionAt(id, time)`, lines 35-50.  The result is built from
`(*revisionIterator)["time"].get<Revision>()`: `timeAsRevision` is what
`TableField::get<Revision>` (missing from the sources) yields for the field `time`. -/
def revisionAt (timeAsRevision : Time → Outcome String) (tbl : Table) (fuel : Nat)
    (id : Hash) (time : Time) : Outcome (Option String) :=
  match getRow tbl id with
  | none => .ret none
  | some row =>
    (chainEntryAt tbl fuel row time).andThen fun found =>
      match found with
      | none => .ret none
      | some entry => (timeAsRevision entry.time).andThen fun r => .ret (some r)

/-- A history of one row, written at time 5 under the key 1, with the given payload. -/
def historyOf (payload : String) : Table := (insert [] 5 1 7 payload 0).1

end History

/-! ## Chunk transaction: an update of an absent id -/

namespace ChunkTransaction

end ChunkTransaction

/-! ## Theorems: Chord index -/

namespace ChordIndex

/-- C1 (code defect): in the ring built by `create()` on peer 1 (key 1) followed by
`join(1)` on peer 2 (key 32774), `findSuccessor(1)` started at peer 1 returns peer 2,
while started at peer 2 it aborts in `closestPrecedingFinger` for every hop budget: the
lookup neither returns normally from every node nor agrees between the nodes. -/
theorem findSuccessor_two_peer_ring_diverges :
    (buildRing hashFar 0 1 [(2, 1)]).returns = true ∧
      findSuccessorRpc (ringOf (buildRing hashFar 0 1 [(2, 1)])) 0 1 1 = .ret 2 ∧
      ∀ hops, findSuccessorRpc (ringOf (buildRing hashFar 0 1 [(2, 1)])) hops 2 1 = .abort := by
  refine ⟨by decide, by decide, ?_⟩
  intro hops
  cases hops <;> rfl

/-- C2 (code defect): the ring built by `create()` on peer 1 (key 1), `join(1)` on peer 2
(key 32774) and `join(1)` on peer 3 (key 0) is built without any abort, yet following the
successor pointer three times from peer 1 visits 2, 3, 2: peer 1 is never reached again
and peer 2 is visited twice. -/
theorem successors_three_peer_ring_not_closed :
    (buildRing hashFar 0 1 [(2, 1), (3, 1)]).returns = true ∧
      (ringOf (buildRing hashFar 0 1 [(2, 1), (3, 1)])).map (fun e => e.1) = [1, 2, 3] ∧
      followSuccessors (ringOf (buildRing hashFar 0 1 [(2, 1), (3, 1)])) 3 1 = [2, 3, 2] := by
  decide

/-- C3: for 16-bit keys, `isIn(key, from, to)` holds iff `from = to` or the clockwise
distance from `from` to `key` is smaller than that from `from` to `to`; moreover
`isIn(from, from, to)` and `isIn(key, from, from)` always hold, and `isIn(to, from, to)`
fails whenever `from ≠ to`. -/
theorem isIn_iff_clockwise_arc (key from_inclusive to_exclusive : Key)
    (hk : key < keySpace) (hf : from_inclusive < keySpace) (ht : to_exclusive < keySpace) :
    (isIn key from_inclusive to_exclusive = true ↔
      (from_inclusive = to_exclusive ∨
        (key + keySpace - from_inclusive) % keySpace
          < (to_exclusive + keySpace - from_inclusive) % keySpace)) ∧
      isIn from_inclusive from_inclusive to_exclusive = true ∧
      isIn key from_inclusive from_inclusive = true ∧
      (from_inclusive ≠ to_exclusive → isIn to_exclusive from_inclusive to_exclusive = false) := by
  have hK : keySpace = 65536 := by decide
  rw [hK] at hk hf ht ⊢
  unfold isIn
  delta Key at *
  refine ⟨?_, ?_, ?_, ?_⟩
  · split_ifs with h1 h2 h3
    · simp only [true_iff]; omega
    · simp only [true_iff]; omega
    · simp only [decide_eq_true_eq]; omega
    · simp only [decide_eq_true_eq]; omega
  · simp
  · simp
  · intro hne
    have h1 : ¬ to_exclusive = from_inclusive := fun h => hne h.symm
    rw [if_neg h1, if_neg h1]
    split_ifs with h3
    · simp only [decide_eq_false_iff_not]; omega
    · simp only [decide_eq_false_iff_not]; omega

/-- C3 at key 70 on the arc from 65530 to 100, which passes 0. -/
theorem isIn_iff_clockwise_arc_witness :
    (70 < keySpace ∧ 65530 < keySpace ∧ 100 < keySpace) ∧
      ((isIn 70 65530 100 = true ↔
        ((65530 : Key) = 100 ∨
          (70 + keySpace - 65530) % keySpace < (100 + keySpace - 65530) % keySpace)) ∧
      isIn 65530 65530 100 = true ∧
      isIn 70 65530 65530 = true ∧
      ((65530 : Key) ≠ 100 → isIn 100 65530 100 = false)) :=
  ⟨by decide, isIn_iff_clockwise_arc 70 65530 100 (by decide) (by decide) (by decide)⟩

/-- C4 (code defect): node 1 has own key 1 and successor peer 2 with key 3.  For the
key 3, the included end of the arc `(own_key, successor.key]`, `findSuccessor` does not
answer locally but delegates (to the finger that is the node itself); for the key 1, the
excluded end, it answers locally with the successor.  With successor key 32774 instead,
the key 32774 is neither answered locally nor delegated: `closestPrecedingFinger` ends in
`LOG(FATAL)`. -/
theorem findSuccessorAction_arc_ends :
    (nodeNear.own_key_ = 1 ∧ nodeNear.successor_ = ⟨2, 3⟩ ∧
      findSuccessorAction nodeNear 3 = .delegate 1 ∧
      findSuccessorAction nodeNear 1 = .answer 2) ∧
    (nodeFar.own_key_ = 1 ∧ nodeFar.successor_ = ⟨2, 32774⟩ ∧
      findSuccessorAction nodeFar 32774 = .fatal) := by
  decide

end ChordIndex

/-! ## Theorems: chunk transaction -/

namespace ChunkTransaction

theorem writeLock_unlocked (self : PeerId) (c : Chunk) (h : c.lock_ = .UNLOCKED) :
    c.writeLock self = some { c with lock_ := .WRITE_LOCKED self } := by
  unfold Chunk.writeLock
  rw [h]

theorem stampInserts_cru (c : Chunk) (time : LogicalTime) (items : List (Id × Revision))
    (clock : LogicalTime) (hcru : c.underlying_table_.type = .CRU) :
    (Chunk.stampInserts c time items clock).1
        = (items.enumFrom clock).map
            (fun ip => (ip.2.1, { ip.2.2 with chunk_id := c.id_, insert_time := time,
                                              update_time := ip.1 })) ∧
      (Chunk.stampInserts c time items clock).2 = clock + items.length := by
  induction items generalizing clock with
  | nil => simp [Chunk.stampInserts]
  | cons x xs ih =>
    obtain ⟨h1, h2⟩ := ih (clock + 1)
    simp only [Chunk.stampInserts, Chunk.stampInsert, hcru, sample, List.enumFrom_cons,
      List.map_cons, List.length_cons]
    rw [h1, h2]
    exact ⟨rfl, by delta LogicalTime; omega⟩

theorem stampInserts_cr (c : Chunk) (time : LogicalTime) (items : List (Id × Revision))
    (clock : LogicalTime) (hcr : c.underlying_table_.type = .CR) :
    (Chunk.stampInserts c time items clock).1
        = items.map (fun p => (p.1, { p.2 with chunk_id := c.id_, insert_time := time })) ∧
      (Chunk.stampInserts c time items clock).2 = clock := by
  induction items generalizing clock with
  | nil => simp [Chunk.stampInserts]
  | cons x xs ih =>
    obtain ⟨h1, h2⟩ := ih clock
    simp only [Chunk.stampInserts, Chunk.stampInsert, hcr, List.map_cons]
    rw [h1, h2]
    exact ⟨rfl, rfl⟩

theorem commitUpdates_spec (time : LogicalTime) (items : List (Id × Revision)) (c : Chunk) :
    (commitUpdates time items c).1
        = items.map (fun p => (p.1, { p.2 with update_time := time })) ∧
      (commitUpdates time items c).2
        = { c with underlying_table_ :=
              { c.underlying_table_ with
                rows := c.underlying_table_.rows
                  ++ items.map (fun p => { p.2 with update_time := time }) } } := by
  induction items generalizing c with
  | nil => simp [commitUpdates]
  | cons x xs ih =>
    simp only [commitUpdates, List.map_cons]
    obtain ⟨h1, h2⟩ := ih (Chunk.updateLocked c time x.2).2
    constructor
    · rw [h1]; rfl
    · rw [h2]; simp [Chunk.updateLocked]

/-- C6: when the chunk is unlocked and `check()` under the write lock fails, `commit()`
returns false, the transaction is the one before the call, and the chunk is the one
before the call: nothing was written to its store and the write lock is released. -/
theorem commit_failed_check (self : PeerId) (c : Chunk) (clock : LogicalTime)
    (t : ChunkTransaction) (clock1 : LogicalTime)
    (hunlocked : c.lock_ = .UNLOCKED)
    (hcheck : check { c with lock_ := .WRITE_LOCKED self } clock t = .ret (false, clock1)) :
    commit self c clock t
      = .ret { success := false, transaction := t, chunk := c, clock := clock1 } := by
  unfold commit
  rw [writeLock_unlocked self c hunlocked]
  simp only [hcheck, Outcome.andThen, if_true]
  congr 2
  cases c
  simp_all [Chunk.unlock]

/-- C6 at the chunk holding item 7 and a transaction that inserts id 7 again. -/
theorem commit_failed_check_witness :
    chunkWithSeven.lock_ = .UNLOCKED ∧
      check { chunkWithSeven with lock_ := .WRITE_LOCKED 0 } 7 collidingTransaction
        = .ret (false, 8) ∧
      commit 0 chunkWithSeven 7 collidingTransaction
        = .ret { success := false, transaction := collidingTransaction,
                 chunk := chunkWithSeven, clock := 8 } :=
  ⟨rfl, by decide,
    commit_failed_check 0 chunkWithSeven 7 collidingTransaction 8 rfl (by decide)⟩

/-- C7 (code defect): when the chunk is unlocked and `check()` under the write lock
passes, leaving the clock at `clock1`, `commit()` returns true with the write lock
released and the store is the old store followed by the staged insertions and the staged
updates; every update is written with `update_time = clock1`, the commit time, and every
insertion with `insert_time = clock1`.  But in a CRU chunk the `update_time` of the
`i`-th inserted row is the further sample `clock1 + 1 + i`, not the commit time: in the
chunk holding item 7, the commit at time 9 of a transaction that inserts id 8 and
updates id 7 writes the update with `update_time = 9` and the insertion with
`update_time = 10`, and the chunk's contents at the commit time 9 do not have the
inserted id 8, which shows only from time 10 on. -/
theorem commit_inserts_sampled_anew :
    (∀ (self : PeerId) (c : Chunk) (clock : LogicalTime) (t : ChunkTransaction)
        (clock1 : LogicalTime),
      c.lock_ = .UNLOCKED →
      check { c with lock_ := .WRITE_LOCKED self } clock t = .ret (true, clock1) →
      ∃ res, commit self c clock t = .ret res ∧ res.success = true ∧
        res.chunk.lock_ = .UNLOCKED ∧ res.chunk.id_ = c.id_ ∧
        res.chunk.underlying_table_.type = c.underlying_table_.type ∧
        res.chunk.underlying_table_.rows
          = c.underlying_table_.rows ++ res.transaction.insertions_.map (fun p => p.2)
              ++ res.transaction.updates_.map (fun p => p.2) ∧
        res.transaction.updates_
          = t.updates_.map (fun p => (p.1, { p.2 with update_time := clock1 })) ∧
        (c.underlying_table_.type = .CR →
          res.transaction.insertions_
            = t.insertions_.map
                (fun p => (p.1, { p.2 with chunk_id := c.id_, insert_time := clock1 }))) ∧
        (c.underlying_table_.type = .CRU →
          res.transaction.insertions_
            = (t.insertions_.enumFrom (clock1 + 1)).map
                (fun ip => (ip.2.1, { ip.2.2 with chunk_id := c.id_, insert_time := clock1,
                                                  update_time := ip.1 })))) ∧
    (check { chunkWithSeven with lock_ := .WRITE_LOCKED 0 } 7 passingTransaction
        = .ret (true, 9) ∧
      ∃ res, commit 0 chunkWithSeven 7 passingTransaction = .ret res ∧
        res.transaction.insertions_
          = [(8, { id := 8, chunk_id := 42, insert_time := 9, update_time := 10,
                   fields := [("n", 2)] })] ∧
        res.transaction.updates_
          = [(7, { id := 7, chunk_id := 42, insert_time := 0, update_time := 9,
                   fields := [("n", 3)] })] ∧
        (res.chunk.dumpItems 9).map (fun p => (p.1, p.2.update_time)) = [(7, 9)] ∧
        (res.chunk.dumpItems 10).map (fun p => (p.1, p.2.update_time))
          = [(8, 10), (7, 9)]) := by
  refine ⟨?_, by decide, ⟨_, rfl, by decide, by decide, by decide, by decide⟩⟩
  intro self c clock t clock1 hunlocked hcheck
  unfold commit
  rw [writeLock_unlocked self c hunlocked]
  simp only [hcheck, Outcome.andThen, Bool.true_eq_false, if_false]
  refine ⟨_, rfl, rfl, ?_, ?_, ?_, ?_, ?_, ?_, ?_⟩
  · simp only [checkedCommit, Chunk.bulkInsertLocked, sample]
    rw [(commitUpdates_spec _ _ _).2]
    simp [Chunk.unlock]
  · simp only [checkedCommit, Chunk.bulkInsertLocked, sample]
    rw [(commitUpdates_spec _ _ _).2]
    simp [Chunk.unlock]
  · simp only [checkedCommit, Chunk.bulkInsertLocked, sample]
    rw [(commitUpdates_spec _ _ _).2]
    simp [Chunk.unlock]
  · simp only [checkedCommit, Chunk.bulkInsertLocked, sample]
    rw [(commitUpdates_spec _ _ _).1, (commitUpdates_spec _ _ _).2]
    simp [Chunk.unlock, Function.comp_def]
  · simp only [checkedCommit, Chunk.bulkInsertLocked, sample]
    rw [(commitUpdates_spec _ _ _).1]
  · intro hcr
    simp only [checkedCommit, Chunk.bulkInsertLocked, sample]
    exact (stampInserts_cr { c with lock_ := .WRITE_LOCKED self } clock1 t.insertions_
      (clock1 + 1) hcr).1
  · intro hcru
    simp only [checkedCommit, Chunk.bulkInsertLocked, sample]
    exact (stampInserts_cru { c with lock_ := .WRITE_LOCKED self } clock1 t.insertions_
      (clock1 + 1) hcru).1

/-- C8 (code defect): `merge` never returns: for every chunk, clock, transaction and
merge time the call aborts, at the latest at the `CHECK(false)` in front of its body. -/
theorem merge_aborts (c : Chunk) (clock : LogicalTime) (t : ChunkTransaction)
    (time : LogicalTime) : merge c clock t time = .abort := by
  simp [merge, CHECK]

end ChunkTransaction

/-! ## Theorems: Raft cluster -/

namespace RaftCluster

/-- Run alone, `handleRequestVote` leaves the term no smaller. -/
theorem handleRequestVote_term_le (p : Peer) (req_term : Nat) :
    p.current_term_ ≤ (handleRequestVote p req_term).1.current_term_ := by
  unfold handleRequestVote
  by_cases h : req_term > p.current_term_
  · rw [if_pos h]; exact Nat.le_of_lt h
  · rw [if_neg h]

/-- Run without interleaving, `handleHearbeat` leaves the term no smaller. -/
theorem handleHearbeat_term_le (p q : Peer) (hb_sender : PeerId) (hb_term : Nat)
    (h : handleHearbeat p hb_sender hb_term = .ret q) :
    p.current_term_ ≤ q.current_term_ := by
  unfold handleHearbeat applyHeartbeat readState at h
  simp only at h
  by_cases h1 : (!p.is_leader_known_ || hb_sender != p.leader_id_
      || hb_term != p.current_term_) = true
  · rw [if_pos h1] at h
    by_cases h2 : (decide (hb_term > p.current_term_)
        || (hb_term == p.current_term_ && !p.is_leader_known_)) = true
    · rw [if_pos h2] at h
      cases h
      simp only [Bool.or_eq_true, decide_eq_true_eq, Bool.and_eq_true, beq_iff_eq] at h2
      rcases h2 with h2 | ⟨h2, _⟩
      · exact Nat.le_of_lt h2
      · exact Nat.le_of_eq h2.symm
    · rw [if_neg h2] at h
      split_ifs at h
      cases h
      exact Nat.le_refl _
  · rw [if_neg h1] at h
    cases h
    exact Nat.le_refl _

/-- The first critical section of `conductElection` raises the term by one, unless the
64-bit counter wraps. -/
theorem electionStart_term (p : Peer) (h : p.current_term_ + 1 < 2 ^ 64) :
    (electionStart p).current_term_ = p.current_term_ + 1 := by
  unfold electionStart
  exact Nat.mod_eq_of_lt h

/-- C9 (code defect): two leaders in one term are reachable in a cluster of 2 peers.
When both peers start an election before either vote request is handled, both requests
are declined and both peers finish as `LEADER` of term 1, because `0 >= 1 / 2` votes
suffice; the same state is reached when the elections run one after the other and the
vote requests fail. -/
theorem two_leaders_in_one_term :
    (run (Cluster.initial 2)
        [.electionStart 0, .electionStart 1, .requestVote 0 1, .requestVote 1 0,
         .electionFinish 0, .electionFinish 1]).map view
      = some [(.LEADER, 1), (.LEADER, 1)] ∧
    (run (Cluster.initial 2)
        [.electionStart 0, .requestFails 0 1, .electionFinish 0,
         .electionStart 1, .requestFails 1 0, .electionFinish 1]).map view
      = some [(.LEADER, 1), (.LEADER, 1)] := by
  decide

/-- C10 (code defect): in a cluster of 2 peers, peer 0 wins the election of term 1 with
the vote of peer 1 and sends its heartbeat; the handler of peer 1 reads term 1, then
peer 1 starts an election and its term is 2, then the handler writes the heartbeat's
term: the term of peer 1 is set from 2 back to 1. -/
theorem heartbeat_write_lowers_term :
    (run (Cluster.initial 2)
        [.electionStart 0, .requestVote 0 1, .electionFinish 0, .heartbeatRead 1 0,
         .electionStart 1]).map view
      = some [(.LEADER, 1), (.CANDIDATE, 2)] ∧
    (run (Cluster.initial 2)
        [.electionStart 0, .requestVote 0 1, .electionFinish 0, .heartbeatRead 1 0,
         .electionStart 1, .heartbeatApply 1]).map view
      = some [(.LEADER, 1), (.CANDIDATE, 1)] := by
  decide

end RaftCluster

/-! ## Theorems: Raft heartbeat -/

namespace RaftCluster

/-- C11 (code defect): a heartbeat of a higher term always gives the peer the term and
the sender as known leader, and leaves it `FOLLOWER` when it was `FOLLOWER` or `LEADER`,
but a `CANDIDATE` stays `CANDIDATE`: a candidate of term 1 that handles a heartbeat of
term 2 from peer 0 is a candidate of term 2 afterwards.  In a cluster of 3 peers the
candidate then finishes its election as a second `LEADER` of term 2. -/
theorem heartbeat_leaves_candidate :
    (∀ (p : Peer) (hb_sender : PeerId) (hb_term : Nat), p.current_term_ < hb_term →
      ∃ q, handleHearbeat p hb_sender hb_term = .ret q ∧
        q.current_term_ = hb_term ∧ q.leader_id_ = hb_sender ∧ q.is_leader_known_ = true ∧
        q.state_ = (if p.state_ = .CANDIDATE then .CANDIDATE else .FOLLOWER)) ∧
    handleHearbeat candidateOfTermOne 0 2
      = .ret { candidateOfTermOne with
                current_term_ := 2, leader_id_ := 0, is_leader_known_ := true } ∧
    (run (Cluster.initial 3)
        [.electionStart 1, .requestVote 1 0, .electionStart 0, .requestVote 0 2,
         .requestFails 0 1, .electionFinish 0, .heartbeatRead 1 0, .heartbeatApply 1,
         .requestVote 1 2, .electionFinish 1]).map view
      = some [(.LEADER, 2), (.LEADER, 2), (.FOLLOWER, 2)] := by
  refine ⟨?_, by decide, by decide⟩
  intro p hb_sender hb_term hlt
  have hne : hb_term ≠ p.current_term_ := Nat.ne_of_gt hlt
  have hret : handleHearbeat p hb_sender hb_term
      = .ret { p with
          current_term_ := hb_term
          leader_id_ := hb_sender
          is_leader_known_ := true
          state_ := if p.state_ = .LEADER then .FOLLOWER else p.state_
          follower_handler_run_ :=
            if p.state_ = .LEADER then false else p.follower_handler_run_ } := by
    unfold handleHearbeat applyHeartbeat readState
    simp [hne, hlt]
  refine ⟨_, hret, rfl, rfl, rfl, ?_⟩
  cases hs : p.state_ <;> simp

end RaftCluster

/-! ## Theorems: net table routing -/

namespace NetTable

theorem routeToChunk_unknown_chunk (handlers : ChunkHandlers) (takes_lock : Bool) (s : State)
    (chunk_id : Id) (request : ChunkRequest) (m : Message)
    (hmiss : s.active_chunks_.lookup chunk_id = none) :
    ∃ r, routeToChunk handlers takes_lock s chunk_id request (some m) = .ret r ∧
      r.response.type = kDecline ∧ r.state = s ∧
      ∀ id req, Effect.chunkHandler id req ∉ r.effects := by
  unfold routeToChunk routingBasics
  cases takes_lock
  · simp [hmiss, Outcome.andThen, Message.decline]
  · simp [hmiss, Outcome.andThen, Message.decline]

/-- C12: for each of the seven chunk request handlers, whatever the chunks' own handlers
are, a request for a chunk id that is not a key of `active_chunks_` returns with the
response of type `DECLINE`, without any call of a chunk's handler, and with
`active_chunks_` as before. -/
theorem unknown_chunk_declined (handlers : ChunkHandlers) (s : State) (chunk_id : Id)
    (request : ChunkRequest) (m : Message)
    (hmiss : s.active_chunks_.lookup chunk_id = none) :
    ∃ r, handle handlers s chunk_id request (some m) = .ret r ∧
      r.response.type = kDecline ∧
      (∀ id req, Effect.chunkHandler id req ∉ r.effects) ∧
      r.state.active_chunks_ = s.active_chunks_ := by
  cases request <;>
    simp only [handle, handleConnectRequest, handleInsertRequest, handleLeaveRequest,
      handleLockRequest, handleNewPeerRequest, handleUnlockRequest, handleUpdateRequest] <;>
    (obtain ⟨r, hr, hd, hs, he⟩ := routeToChunk_unknown_chunk handlers _ s chunk_id _ m hmiss
     exact ⟨r, hr, hd, he, by rw [hs]⟩)

/-- C12 at a table that holds chunk 42 only and a lock request for chunk 7. -/
theorem unknown_chunk_declined_witness :
    tableWithChunk.active_chunks_.lookup 7 = none ∧
      ∃ r, handle ackHandlers tableWithChunk 7 (.lock 3) (some { type := "", serialized := "" })
          = .ret r ∧
        r.response.type = kDecline ∧
        (∀ id req, Effect.chunkHandler id req ∉ r.effects) ∧
        r.state.active_chunks_ = tableWithChunk.active_chunks_ :=
  ⟨by decide,
    unknown_chunk_declined ackHandlers tableWithChunk 7 (.lock 3)
      { type := "", serialized := "" } (by decide)⟩

end NetTable

/-! ## Theorems: CRU table -/

namespace CRUTable

theorem keyedStore_insertsNewKeys : InsertsNewKeys keyedStore := by
  intro tbl r hnew
  unfold keyedStore
  rw [if_neg]
  simp only [List.any_eq_true, decide_eq_true_eq, not_exists, not_and]
  intro s hs hid
  exact hnew s hs hid

theorem update_unlinked (store : DerivedStore) (initialized : Bool) (reference : Revision)
    (tbl : CRTable) (query : Revision) (time : LogicalTime)
    (hinit : initialized = true) (hmatch : structureMatch reference query = true)
    (hid : query.id ≠ invalidId) :
    update false initialized reference store tbl (some query) time
      = match store tbl { query with update_time := time } with
        | none => .abort
        | some stored => .ret (stored, { query with update_time := time }) := by
  simp [update, CHECK, hinit, hmatch, hid]

/-- C13 (as stated, refuted): with the linked flag off, `update` of item 7, whose stored
update time is 4, with the time 2 compares nothing and hands the revision stamped 2 to
the derived store.  With the example store keyed by `(id, update_time)`, and with every
store that inserts revisions of a new key, the call returns, the revision is appended
and the update times of item 7 are then 4, 2 in insertion order. -/
theorem update_appends_earlier_time :
    (∃ r, update false true sevenUpdated keyedStore tableWithSeven (some sevenUpdated) 2
        = .ret r ∧
      r.1.rows.length = tableWithSeven.rows.length + 1 ∧
      updateTimes tableWithSeven 7 = [4] ∧ updateTimes r.1 7 = [4, 2]) ∧
    InsertsNewKeys keyedStore ∧
    (∀ store : DerivedStore, InsertsNewKeys store →
      ∃ r, update false true sevenUpdated store tableWithSeven (some sevenUpdated) 2 = .ret r ∧
        updateTimes r.1 7 = [4, 2]) := by
  refine ⟨⟨_, rfl, by decide, by decide, by decide⟩, keyedStore_insertsNewKeys, ?_⟩
  intro store hstore
  have hstored := hstore tableWithSeven { sevenUpdated with update_time := 2 } (by decide)
  have hret : update false true sevenUpdated store tableWithSeven (some sevenUpdated) 2
      = .ret ({ tableWithSeven with
                rows := tableWithSeven.rows ++ [{ sevenUpdated with update_time := 2 }] },
              { sevenUpdated with update_time := 2 }) := by
    rw [update_unlinked store true sevenUpdated tableWithSeven sevenUpdated 2 rfl
      (by decide) (by decide), hstored]
  exact ⟨_, hret, by decide⟩

/-- C13 (amended): with the linked flag off, `update(query, time)` on an initialised
table, for a query of the table's structure with a valid id, compares `time` with
nothing: it hands the query stamped `update_time = time` to the derived store and
returns iff the store accepts it.  For a store that inserts revisions of a new key, and
a `time` that is not the update time of a stored revision of the id, the query is
appended whatever the stored update times are, and the update times of the id are then
strictly increasing in insertion order iff they were before and `time` is strictly
greater than each of them. -/
theorem update_compares_nothing (store : DerivedStore) (initialized : Bool)
    (reference : Revision) (tbl : CRTable) (query : Revision) (time : LogicalTime)
    (hinit : initialized = true) (hmatch : structureMatch reference query = true)
    (hid : query.id ≠ invalidId) :
    update false initialized reference store tbl (some query) time
      = (match store tbl { query with update_time := time } with
        | none => .abort
        | some stored => .ret (stored, { query with update_time := time })) ∧
    (InsertsNewKeys store →
      (∀ s ∈ tbl.rows, s.id = query.id → s.update_time ≠ time) →
      update false initialized reference store tbl (some query) time
          = .ret ({ tbl with rows := tbl.rows ++ [{ query with update_time := time }] },
                  { query with update_time := time }) ∧
        (List.Pairwise (· < ·)
            (updateTimes { tbl with rows := tbl.rows ++ [{ query with update_time := time }] }
              query.id)
          ↔ List.Pairwise (· < ·) (updateTimes tbl query.id) ∧
            ∀ stored ∈ updateTimes tbl query.id, stored < time)) := by
  have hupdate := update_unlinked store initialized reference tbl query time hinit hmatch hid
  refine ⟨hupdate, ?_⟩
  intro hstore hnew
  constructor
  · rw [hupdate, hstore tbl { query with update_time := time } hnew]
  · simp only [updateTimes, List.filter_append, List.map_append, List.pairwise_append]
    simp

/-- C13 (amended) at the table holding item 7 (update time 4), the example store keyed
by `(id, update_time)`, and an update at the earlier time 2. -/
theorem update_compares_nothing_witness :
    (true = true ∧ structureMatch sevenUpdated sevenUpdated = true ∧
      sevenUpdated.id ≠ invalidId) ∧
    (update false true sevenUpdated keyedStore tableWithSeven (some sevenUpdated) 2
      = (match keyedStore tableWithSeven { sevenUpdated with update_time := 2 } with
        | none => .abort
        | some stored => .ret (stored, { sevenUpdated with update_time := 2 })) ∧
    (InsertsNewKeys keyedStore →
      (∀ s ∈ tableWithSeven.rows, s.id = sevenUpdated.id → s.update_time ≠ 2) →
      update false true sevenUpdated keyedStore tableWithSeven (some sevenUpdated) 2
          = .ret ({ tableWithSeven with
                    rows := tableWithSeven.rows ++ [{ sevenUpdated with update_time := 2 }] },
                  { sevenUpdated with update_time := 2 }) ∧
        (List.Pairwise (· < ·)
            (updateTimes { tableWithSeven with
                rows := tableWithSeven.rows ++ [{ sevenUpdated with update_time := 2 }] }
              sevenUpdated.id)
          ↔ List.Pairwise (· < ·) (updateTimes tableWithSeven sevenUpdated.id) ∧
            ∀ stored ∈ updateTimes tableWithSeven sevenUpdated.id, stored < 2))) :=
  ⟨by decide,
    update_compares_nothing keyedStore true sevenUpdated tableWithSeven sevenUpdated 2 rfl
      (by decide) (by decide)⟩

end CRUTable

/-! ## Theorems: Chord notify, join, create and failed lookups -/

namespace ChordIndex

/-- C15 (code defect): finger 1 of node 1 has base key 3 and peer 2, whose key 3 is the
base key, so its clockwise distance from the base key is 0, which is not greater than the
distance 97 of key 100.  `handleNotify` of peer 3 (key 100, not yet in the peer bag)
replaces this finger's peer by peer 3 all the same, because `isIn(100, 3, 3)` holds. -/
theorem handleNotify_replaces_exact_finger :
    3 ∉ nodeExact.peers_ ∧
      nodeExact.fingers_.get? 1 = some ⟨3, ⟨2, 3⟩⟩ ∧
      ¬ ((3 + keySpace - 3) % keySpace > (hashExact 3 + keySpace - 3) % keySpace) ∧
      isIn (hashExact 3) 3 3 = true ∧
      (handleNotify hashExact nodeExact 3).fingers_.get? 1 = some ⟨3, ⟨3, 100⟩⟩ := by
  decide

theorem andThen_eq_ret {α β : Type} (o : Outcome α) (k : α → Outcome β) (b : β)
    (h : o.andThen k = .ret b) : ∃ a, o = .ret a ∧ k a = .ret b := by
  cases o with
  | ret a => exact ⟨a, rfl, h⟩
  | abort => cases h
  | hang => cases h

theorem registerPeer_spec (hash : PeerId → Key) (peers : List PeerId) (held : List ChordPeer)
    (peer : PeerId) (r : ChordPeer × List PeerId)
    (hheld : ∀ p ∈ held, p.key = hash p.id)
    (h : registerPeer hash peers held peer = .ret r) :
    r.1.id = peer ∧ r.1.key = hash peer ∧ peer ∈ r.2 ∧ ∀ q ∈ peers, q ∈ r.2 := by
  unfold registerPeer at h
  by_cases hp : peer ∈ peers
  · rw [if_pos hp] at h
    cases hf : held.find? (fun p => p.id = peer) with
    | none => rw [hf] at h; cases h
    | some existing =>
      rw [hf] at h
      cases h
      have hmem := List.mem_of_find?_eq_some hf
      have hid : existing.id = peer := by
        have := List.find?_some hf
        simpa using this
      exact ⟨hid, by rw [hheld existing hmem, hid], hp, fun q hq => hq⟩
  · rw [if_neg hp] at h
    cases h
    exact ⟨rfl, rfl, List.mem_cons_self _ _, fun q hq => List.mem_cons_of_mem _ hq⟩

theorem joinFingers_spec (hash : PeerId → Key) (net : Network) (hops : Nat) (other : PeerId)
    (keys : List Key) (done : List Finger) (peers : List PeerId)
    (r : List Finger × List PeerId)
    (hdone : ∀ f ∈ done, f.peer.key = hash f.peer.id ∧ f.peer.id ∈ peers)
    (h : joinFingers hash net hops other keys done peers = .ret r) :
    (∃ added, r.1 = done ++ added ∧ added.map (fun f => f.base_key) = keys ∧
      ∀ f ∈ added, findSuccessorRpc net hops other f.base_key = .ret f.peer.id) ∧
    (∀ f ∈ r.1, f.peer.key = hash f.peer.id ∧ f.peer.id ∈ r.2) := by
  induction keys generalizing done peers with
  | nil =>
    simp only [joinFingers] at h
    cases h
    exact ⟨⟨[], by simp, rfl, by simp⟩, hdone⟩
  | cons base_key rest ih =>
    simp only [joinFingers] at h
    obtain ⟨finger, hrpc, h⟩ := andThen_eq_ret _ _ _ h
    obtain ⟨reg, hreg, h⟩ := andThen_eq_ret _ _ _ h
    have hheld : ∀ p ∈ done.map (fun f => f.peer), p.key = hash p.id := by
      intro p hp
      obtain ⟨f, hf, rfl⟩ := List.mem_map.mp hp
      exact (hdone f hf).1
    obtain ⟨hid, hkey, hin, hsub⟩ := registerPeer_spec hash peers _ finger reg hheld hreg
    have hdone1 : ∀ f ∈ done ++ [⟨base_key, reg.1⟩],
        f.peer.key = hash f.peer.id ∧ f.peer.id ∈ reg.2 := by
      intro f hf
      rcases List.mem_append.mp hf with hf | hf
      · exact ⟨(hdone f hf).1, hsub _ (hdone f hf).2⟩
      · simp only [List.mem_singleton] at hf
        subst hf
        exact ⟨by rw [hkey, hid], by rw [hid]; exact hin⟩
    obtain ⟨⟨added, hadd, hkeys, hans⟩, hinv⟩ := ih _ _ hdone1 h
    refine ⟨⟨⟨base_key, reg.1⟩ :: added, ?_, ?_, ?_⟩, hinv⟩
    · rw [hadd]; simp
    · simp [hkeys]
    · intro f hf
      rcases List.mem_cons.mp hf with hf | hf
      · subst hf; simpa [hid] using hrpc
      · exact hans f hf

theorem lookup_append_new (net : Network) (self : PeerId) (node : State)
    (hnew : net.lookup self = none) : (net ++ [(self, node)]).lookup self = some node := by
  induction net with
  | nil => simp [List.lookup]
  | cons e rest ih =>
    obtain ⟨k, v⟩ := e
    simp only [List.lookup_cons, List.cons_append] at hnew ⊢
    cases hk : (self == k)
    · simp only [hk] at hnew ⊢
      exact ih hnew
    · simp [hk] at hnew

theorem lookup_map_value (net : Network) (g : PeerId → State → State) (p : PeerId) :
    (net.map (fun e => (e.1, g e.1 e.2))).lookup p = (net.lookup p).map (g p) := by
  induction net with
  | nil => rfl
  | cons e rest ih =>
    obtain ⟨k, v⟩ := e
    simp only [List.map_cons, List.lookup_cons]
    cases hk : (p == k)
    · simpa using ih
    · have : p = k := by simpa using hk
      subst this
      simp

theorem notifyRpc_lookup (hash : PeerId → Key) (net net1 : Network) (to_ subject p : PeerId)
    (h : notifyRpc hash net to_ subject = .ret net1) :
    net1.lookup p
      = (net.lookup p).map (fun v => if p = to_ then handleNotify hash v subject else v) := by
  unfold notifyRpc at h
  cases ht : net.lookup to_ with
  | none => rw [ht] at h; cases h
  | some target =>
    rw [ht] at h
    cases h
    have hmap : net.map (fun e => if e.1 = to_ then (e.1, handleNotify hash target subject) else e)
        = net.map (fun e => (e.1, (fun k v => if k = to_ then handleNotify hash target subject
            else v) e.1 e.2)) := by
      apply List.map_congr_left
      intro e _
      by_cases he : e.1 = to_ <;> simp [he]
    rw [hmap, lookup_map_value net (fun k v => if k = to_ then handleNotify hash target subject
      else v) p]
    by_cases hp : p = to_
    · subst hp; simp [ht]
    · simp [hp]

/-- C16: when `join(other)` returns on a node that is new to the network, the node is
initialised; its fingers have the base keys of `init`, and the peer of each is the one
that `other` answered for `findSuccessor` of its base key; its successor is the peer of
finger 0; its predecessor is the peer that this successor reported as predecessor; and
`notify(self)` was handled first by the predecessor, then by the successor. -/
theorem join_postcondition (hash : PeerId → Key) (hops : Nat) (net : Network)
    (self other : PeerId) (joined : Network)
    (hnew : net.lookup self = none)
    (h : join hash hops net self other = .ret joined) :
    ∃ node notified,
      joined.lookup self = some node ∧
      node.initialized_ = true ∧
      node.fingers_.map (fun f => f.base_key) = baseKeys (hash self) ∧
      (∀ f ∈ node.fingers_,
        findSuccessorRpc net hops other f.base_key = .ret f.peer.id ∧
          f.peer.key = hash f.peer.id) ∧
      (∃ finger0, node.fingers_.head? = some finger0 ∧ node.successor_ = finger0.peer) ∧
      getPredecessorRpc net node.successor_.id = .ret node.predecessor_.id ∧
      node.predecessor_.key = hash node.predecessor_.id ∧
      notifyRpc hash (net ++ [(self, node)]) node.predecessor_.id self = .ret notified ∧
      notifyRpc hash notified node.successor_.id self = .ret joined := by
  unfold join at h
  simp only at h
  obtain ⟨fp, hfp, h⟩ := andThen_eq_ret _ _ _ h
  obtain ⟨⟨added, hadd, hkeys, hans⟩, hinv⟩ :=
    joinFingers_spec hash net hops other _ [] [] fp (by simp) hfp
  simp only [List.nil_append] at hadd
  cases hhead : fp.1.head? with
  | none => rw [hhead] at h; cases h
  | some finger0 =>
    rw [hhead] at h
    simp only at h
    obtain ⟨predecessor, hpred, h⟩ := andThen_eq_ret _ _ _ h
    by_cases hcol : hash predecessor = hash self
    · rw [if_pos hcol] at h; cases h
    · rw [if_neg hcol] at h
      obtain ⟨reg, hreg, h⟩ := andThen_eq_ret _ _ _ h
      have hheld : ∀ p ∈ fp.1.map (fun f => f.peer), p.key = hash p.id := by
        intro p hp
        obtain ⟨f, hf, rfl⟩ := List.mem_map.mp hp
        exact (hinv f hf).1
      obtain ⟨hid, hkey, _, hsub⟩ := registerPeer_spec hash fp.2 _ predecessor reg hheld hreg
      obtain ⟨notified, hn1, hn2⟩ := andThen_eq_ret _ _ _ h
      have h0mem : finger0 ∈ fp.1 := List.mem_of_mem_head? hhead
      have hne : self ≠ reg.1.id := by
        intro hself
        apply hcol
        rw [← hid, ← hself]
      refine ⟨_, notified, ?_, rfl, ?_, ?_, ⟨finger0, hhead, rfl⟩, ?_, ?_, hn1, hn2⟩
      · rw [notifyRpc_lookup hash _ _ _ _ self hn2, notifyRpc_lookup hash _ _ _ _ self hn1,
          lookup_append_new net self _ hnew]
        simp only [Option.map_some', if_neg hne]
        by_cases hs : self = finger0.peer.id
        · rw [if_pos hs]
          have hin : self ∈ reg.2 := by
            rw [hs]; exact hsub _ (hinv finger0 h0mem).2
          simp [handleNotify, hin]
        · rw [if_neg hs]
      · rw [hadd]; exact hkeys
      · intro f hf
        refine ⟨hans f ?_, (hinv f hf).1⟩
        rw [hadd] at hf; exact hf
      · simpa [hid] using hpred
      · simp [hkey, hid]

/-- C16 at the join of peer 2 through peer 1, the creator of the ring. -/
theorem join_postcondition_witness :
    (([(1, create hashFar 1)] : Network).lookup 2 = none ∧
      join hashFar 0 [(1, create hashFar 1)] 2 1
        = .ret (ringOf (buildRing hashFar 0 1 [(2, 1)]))) ∧
    ∃ node notified,
      (ringOf (buildRing hashFar 0 1 [(2, 1)])).lookup 2 = some node ∧
      node.initialized_ = true ∧
      node.fingers_.map (fun f => f.base_key) = baseKeys (hashFar 2) ∧
      (∀ f ∈ node.fingers_,
        findSuccessorRpc [(1, create hashFar 1)] 0 1 f.base_key = .ret f.peer.id ∧
          f.peer.key = hashFar f.peer.id) ∧
      (∃ finger0, node.fingers_.head? = some finger0 ∧ node.successor_ = finger0.peer) ∧
      getPredecessorRpc [(1, create hashFar 1)] node.successor_.id
        = .ret node.predecessor_.id ∧
      node.predecessor_.key = hashFar node.predecessor_.id ∧
      notifyRpc hashFar ([(1, create hashFar 1)] ++ [(2, node)]) node.predecessor_.id 2
        = .ret notified ∧
      notifyRpc hashFar notified node.successor_.id 2
        = .ret (ringOf (buildRing hashFar 0 1 [(2, 1)])) :=
  ⟨by decide,
    join_postcondition hashFar 0 [(1, create hashFar 1)] 2 1
      (ringOf (buildRing hashFar 0 1 [(2, 1)])) (by decide) (by decide)⟩

/-- C17: after `create()` the index has 16 fingers; finger `i` has the base key
`(own_key + 2 ^ i) mod 2 ^ 16` and the peer itself as peer; successor and predecessor
are the peer itself, and the index is initialised. -/
theorem create_postcondition (hash : PeerId → Key) (self : PeerId) :
    (create hash self).fingers_.length = 16 ∧
      (∀ i : Fin 16, (create hash self).fingers_.get? i
        = some ⟨(hash self + 2 ^ (i : Nat)) % 2 ^ 16, (create hash self).self_⟩) ∧
      (create hash self).self_ = ⟨self, hash self⟩ ∧
      (create hash self).own_key_ = hash self ∧
      (create hash self).successor_ = (create hash self).self_ ∧
      (create hash self).predecessor_ = (create hash self).self_ ∧
      (create hash self).initialized_ = true := by
  refine ⟨by simp [create, baseKeys, M], ?_, rfl, rfl, rfl, rfl, rfl⟩
  intro i
  have hi : (i : Nat) < 16 := i.isLt
  simp [create, baseKeys, M, keySpace, List.getElem?_range, hi]

/-- C18 (code defect): whenever `findSuccessor` must hand the key to a finger and that
peer does not answer, so that `findSuccessorRpc` reports failure, `findSuccessor` aborts
on the failed `CHECK`, for every hop budget that allows the call: no failure value is
returned to the caller. -/
theorem findSuccessor_aborts_on_failed_rpc (net : Network) (hops : Nat) (n : State)
    (key : Key) (to_ : PeerId)
    (hdelegate : findSuccessorAction n key = .delegate to_)
    (hfail : net.lookup to_ = none) :
    findSuccessor net (hops + 1) n key = .abort := by
  unfold findSuccessor
  rw [hdelegate]
  simp only [hfail]

/-- C18 at node 1, all of whose fingers are peer 2, the key 0, and a network in which
peer 2 does not answer. -/
theorem findSuccessor_aborts_on_failed_rpc_witness :
    (findSuccessorAction nodeFar 0 = .delegate 2 ∧
      ([(1, nodeFar)] : Network).lookup 2 = none) ∧
    findSuccessor [(1, nodeFar)] 1 nodeFar 0 = .abort :=
  ⟨by decide,
    findSuccessor_aborts_on_failed_rpc [(1, nodeFar)] 0 nodeFar 0 2 (by decide) (by decide)⟩

end ChordIndex

/-! ## Theorems: chunk transaction, reading and staging -/

namespace ChunkTransaction

theorem getById_foldl_spec (type : TableType) (id : Id) (time : LogicalTime)
    (rows : List Revision) (init : Option Revision)
    (hinit : ∀ b, init = some b → b.id = id ∧ CRTable.stamp type b ≤ time) :
    ∀ r, rows.foldl
        (fun best r =>
          if r.id = id ∧ CRTable.stamp type r ≤ time then
            match best with
            | none => some r
            | some b => if CRTable.stamp type b ≤ CRTable.stamp type r then some r else some b
          else best)
        init = some r → r.id = id ∧ CRTable.stamp type r ≤ time ∧ (r ∈ rows ∨ init = some r) := by
  induction rows generalizing init with
  | nil =>
    intro r hr
    simp only [List.foldl_nil] at hr
    exact ⟨(hinit r hr).1, (hinit r hr).2, Or.inr hr⟩
  | cons x xs ih =>
    intro r hr
    simp only [List.foldl_cons] at hr
    by_cases hx : x.id = id ∧ CRTable.stamp type x ≤ time
    · rw [if_pos hx] at hr
      cases init with
      | none =>
        simp only at hr
        obtain ⟨h1, h2, h3⟩ := ih (some x) (by intro b hb; cases hb; exact hx) r hr
        refine ⟨h1, h2, Or.inl ?_⟩
        rcases h3 with h3 | h3
        · exact List.mem_cons_of_mem _ h3
        · cases h3; exact List.mem_cons_self _ _
      | some b =>
        simp only at hr
        by_cases hb : CRTable.stamp type b ≤ CRTable.stamp type x
        · rw [if_pos hb] at hr
          obtain ⟨h1, h2, h3⟩ := ih (some x) (by intro b hb; cases hb; exact hx) r hr
          refine ⟨h1, h2, Or.inl ?_⟩
          rcases h3 with h3 | h3
          · exact List.mem_cons_of_mem _ h3
          · cases h3; exact List.mem_cons_self _ _
        · rw [if_neg hb] at hr
          obtain ⟨h1, h2, h3⟩ := ih (some b) hinit r hr
          refine ⟨h1, h2, ?_⟩
          rcases h3 with h3 | h3
          · exact Or.inl (List.mem_cons_of_mem _ h3)
          · exact Or.inr h3
    · rw [if_neg hx] at hr
      obtain ⟨h1, h2, h3⟩ := ih init hinit r hr
      refine ⟨h1, h2, ?_⟩
      rcases h3 with h3 | h3
      · exact Or.inl (List.mem_cons_of_mem _ h3)
      · exact Or.inr h3

theorem table_getById_spec (tbl : CRTable) (id : Id) (time : LogicalTime) (r : Revision)
    (h : tbl.getById id time = some r) :
    r ∈ tbl.rows ∧ r.id = id ∧ CRTable.stamp tbl.type r ≤ time := by
  unfold CRTable.getById at h
  obtain ⟨h1, h2, h3⟩ := getById_foldl_spec tbl.type id time tbl.rows none
    (by intro b hb; cases hb) r h
  rcases h3 with h3 | h3
  · exact ⟨h3, h1, h2⟩
  · cases h3

theorem readLock_table (c locked : Chunk) (h : c.readLock = some locked) :
    locked.underlying_table_ = c.underlying_table_ := by
  unfold Chunk.readLock at h
  cases hl : c.lock_ <;> rw [hl] at h <;> simp at h <;> rw [← h]

/-- C19: `getById(id)` returns the staged revision (the staged update, else the staged
insertion) without any call on the chunk; when the id is not staged and the read lock
can be taken, it takes the read lock, returns what the table's `getById(id, begin_time)`
returns, and unlocks; a revision so returned is a stored revision of the id whose stamp
is not later than `begin_time`. -/
theorem getById_staged_or_stored (c : Chunk) (t : ChunkTransaction) (id : Id) :
    (∀ staged, getByIdFromUncommitted t id = some staged ↔
      (t.updates_.lookup id = some staged ∨
        (t.updates_.lookup id = none ∧ t.insertions_.lookup id = some staged))) ∧
    (∀ staged, getByIdFromUncommitted t id = some staged →
      getByIdWithCalls c t id = .ret (some staged, c, [])) ∧
    (getByIdFromUncommitted t id = none → ∀ locked, c.readLock = some locked →
      getByIdWithCalls c t id
        = .ret (c.underlying_table_.getById id t.begin_time_, locked.unlock,
            [.readLock, .tableGetById id t.begin_time_, .unlock]) ∧
      ∀ r, c.underlying_table_.getById id t.begin_time_ = some r →
        r ∈ c.underlying_table_.rows ∧ r.id = id ∧
          CRTable.stamp c.underlying_table_.type r ≤ t.begin_time_) := by
  refine ⟨?_, ?_, ?_⟩
  · intro staged
    unfold getByIdFromUncommitted
    cases hu : t.updates_.lookup id <;> simp
  · intro staged hs
    unfold getByIdWithCalls
    rw [hs]
  · intro hnone locked hlock
    constructor
    · unfold getByIdWithCalls
      rw [hnone, hlock]
      simp only [readLock_table c locked hlock]
    · intro r hr
      exact table_getById_spec _ _ _ _ hr

/-- C19 at a chunk that holds item 7 in revisions of update times 2 and 5: a transaction
begun at time 3 with nothing staged reads the revision of time 2 under the read lock, a
transaction with a staged update of item 7 reads the staged revision without a call. -/
theorem getById_staged_or_stored_witness :
    getByIdWithCalls chunkWithHistory emptyTransaction 7
        = .ret (some { id := 7, chunk_id := 42, insert_time := 1, update_time := 2,
                       fields := [("n", 1)] },
            chunkWithHistory, [.readLock, .tableGetById 7 3, .unlock]) ∧
      getByIdWithCalls chunkWithHistory updateOnly 7
        = .ret (some (rev 7 3), chunkWithHistory, []) :=
  ⟨((getById_staged_or_stored chunkWithHistory emptyTransaction 7).2.2 (by decide)
      { chunkWithHistory with lock_ := .READ_LOCKED 1 } (by decide)).1.trans (by decide),
    (getById_staged_or_stored chunkWithHistory updateOnly 7).2.1 (rev 7 3) (by decide)⟩

/-- C20 (as stated, refuted): the id 7 is staged as an update; `insert` of a revision
with the id 7 is not rejected but stages it as an insertion as well. -/
theorem insert_of_updated_id :
    updateOnly.updates_.lookup 7 = some (rev 7 3) ∧
      insert (rev 0 0) updateOnly (some (rev 7 9))
        = .ret { updateOnly with insertions_ := [(7, rev 7 9)] } := by
  decide

/-- C20 (amended): for a revision `r` that matches the template, `insert(r)` adds exactly
the entry `r.id -> r` to the staged insertions and changes nothing else when `r.id` is
not staged as an insertion; it is rejected by a failed check, staging nothing, when
`r.id` is staged as an insertion.  Staged updates play no part. -/
theorem insert_checks_insertions_only (structure_reference : Revision)
    (t : ChunkTransaction) (r : Revision)
    (hmatch : CRUTable.structureMatch r structure_reference = true) :
    (t.insertions_.lookup r.id = none →
      insert structure_reference t (some r)
        = .ret { t with insertions_ := t.insertions_ ++ [(r.id, r)] }) ∧
    (∀ staged, t.insertions_.lookup r.id = some staged →
      insert structure_reference t (some r) = .abort) := by
  constructor
  · intro h
    simp [insert, CHECK, hmatch, h, mapInsert]
  · intro staged h
    simp [insert, CHECK, hmatch, h]

/-- C20 (amended) at a transaction without insertions and at one that has staged the
insertion of id 7. -/
theorem insert_checks_insertions_only_witness :
    CRUTable.structureMatch (rev 7 9) (rev 0 0) = true ∧
      insert (rev 0 0) updateOnly (some (rev 7 9))
        = .ret { updateOnly with insertions_ := updateOnly.insertions_ ++ [(7, rev 7 9)] } ∧
      insert (rev 0 0) collidingTransaction (some (rev 7 9)) = .abort :=
  ⟨by decide,
    (insert_checks_insertions_only (rev 0 0) updateOnly (rev 7 9) (by decide)).1 (by decide),
    (insert_checks_insertions_only (rev 0 0) collidingTransaction (rev 7 9) (by decide)).2
      (rev 7 2) (by decide)⟩

end ChunkTransaction

/-! ## Theorems: updates on CR and CRU tables -/

namespace ChunkTransaction

/-- C21: on a table of type CR, `ChunkTransaction::update` and `NetTable::update` fail a
check for every revision, before anything is staged or any chunk is touched; on a CRU
table `ChunkTransaction::update(r)`, for `r` matching the template and `r.id` not yet
staged as an update, adds exactly the entry `r.id -> r` to the staged updates. -/
theorem update_only_on_cru :
    (∀ (structure_reference : Revision) (t : ChunkTransaction) (revision : Option Revision),
      update structure_reference .CR t revision = .abort) ∧
    (∀ (getChunk : Id → Outcome (Option Chunk)) (chunkUpdate : Chunk → Revision → Outcome Chunk)
        (query : Option Revision),
      NetTable.update .CR getChunk chunkUpdate query = .abort) ∧
    (∀ (structure_reference : Revision) (t : ChunkTransaction) (r : Revision),
      CRUTable.structureMatch r structure_reference = true →
      t.updates_.lookup r.id = none →
      update structure_reference .CRU t (some r)
        = .ret { t with updates_ := t.updates_ ++ [(r.id, r)] }) := by
  refine ⟨?_, ?_, ?_⟩
  · intro structure_reference t revision
    cases revision with
    | none => rfl
    | some r =>
      simp only [update, CHECK]
      split_ifs <;> simp_all
  · intro getChunk chunkUpdate query
    cases query with
    | none => rfl
    | some q => simp [NetTable.update, CHECK]
  · intro structure_reference t r hmatch hfresh
    simp [update, CHECK, hmatch, hfresh, mapInsert]

/-- C21 at a CR table with a matching revision, and at a CRU table and a transaction
with nothing staged. -/
theorem update_only_on_cru_witness :
    update (rev 0 0) .CR emptyTransaction (some (rev 7 9)) = .abort ∧
      update (rev 0 0) .CRU emptyTransaction (some (rev 7 9))
        = .ret { emptyTransaction with updates_ := [(7, rev 7 9)] } :=
  ⟨update_only_on_cru.1 (rev 0 0) emptyTransaction (some (rev 7 9)),
    update_only_on_cru.2.2 (rev 0 0) emptyTransaction (rev 7 9) (by decide) (by decide)⟩

end ChunkTransaction

/-! ## Theorems: linked CRU updates -/

namespace CRUTable

/-- C22 (code defect): with the linked flag on, `update` never returns: every call
aborts, at the latest at the `CHECK(false)` of line 44, whatever the derived store is.
The statements behind that check would do what is claimed: for item 7 stored with update
time 4 and an update at time 9 they store the new revision with `previous_time = 4` and
`next_time` the default time, and give the former revision `next_time = 9`. -/
theorem update_linked_aborts :
    (∀ (initialized : Bool) (reference : Revision) (store : DerivedStore) (tbl : CRTable)
        (query : Option Revision) (time : LogicalTime),
      update true initialized reference store tbl query time = .abort) ∧
    updateLinked keyedStore linkedTableWithSeven { linkedSeven 2 0 with update_time := 9 } 7 9
        (linkedTableWithSeven.getById 7 9)
      = .ret ({ type := .CRU,
                rows := [{ linkedSeven 1 4 with
                            fields := [("n", 1), (kPreviousTimeField, 0), (kNextTimeField, 9)] },
                         { linkedSeven 2 9 with
                            fields := [("n", 2), (kPreviousTimeField, 4),
                                       (kNextTimeField, Int.ofNat defaultLogicalTime)] }] },
              { linkedSeven 2 9 with
                  fields := [("n", 2), (kPreviousTimeField, 4),
                             (kNextTimeField, Int.ofNat defaultLogicalTime)] }) := by
  refine ⟨?_, by decide⟩
  intro initialized reference store tbl query time
  cases query with
  | none => rfl
  | some q =>
    simp only [update, CHECK]
    split_ifs <;> simp_all

end CRUTable

/-! ## Theorems: Raft heartbeats of the same term and votes -/

namespace RaftCluster

/-- C23 (code defect): a peer that knows a leader for its term `t > 0` and handles a
heartbeat of term `t` from another sender aborts when it is `FOLLOWER`, but returns with
its state untouched when it is `CANDIDATE` or `LEADER`.  In a cluster of 2 peers that
are both `LEADER` of term 1, each handles the other's heartbeat and both stay `LEADER`:
the two leaders of one term are not detected. -/
theorem same_term_heartbeat_aborts_follower_only :
    (∀ (p : Peer) (hb_sender : PeerId), p.is_leader_known_ = true → 0 < p.current_term_ →
      hb_sender ≠ p.leader_id_ →
      handleHearbeat p hb_sender p.current_term_
        = if p.state_ = .FOLLOWER then .abort else .ret p) ∧
    (run (Cluster.initial 2)
        [.electionStart 0, .electionStart 1, .requestVote 0 1, .requestVote 1 0,
         .electionFinish 0, .electionFinish 1]).map view
      = some [(.LEADER, 1), (.LEADER, 1)] ∧
    (run (Cluster.initial 2)
        [.electionStart 0, .electionStart 1, .requestVote 0 1, .requestVote 1 0,
         .electionFinish 0, .electionFinish 1, .heartbeatRead 0 1, .heartbeatApply 0,
         .heartbeatRead 1 0, .heartbeatApply 1]).map view
      = some [(.LEADER, 1), (.LEADER, 1)] := by
  refine ⟨?_, by decide, by decide⟩
  intro p hb_sender hknown hterm hsender
  have hpos : p.current_term_ ≠ 0 := Nat.pos_iff_ne_zero.mp hterm
  unfold handleHearbeat applyHeartbeat readState
  cases hs : p.state_ <;> simp [hknown, hsender, hterm]

/-- C29 (code defect): `handleRequestVote` grants iff the request's term exceeds the
current term; granting sets the term to the request's, the state to `FOLLOWER` and the
leader to unknown, declining changes nothing.  Still a peer can grant two votes for one
term: in a cluster of 5 peers, peer 3 grants the vote of term 2 to peer 1, a heartbeat
handler that read peer 3 at term 1 then writes the term 1 back, and peer 3 grants the
vote of term 2 to peer 2 as well; peers 1 and 2 both end as `LEADER` of term 2.  In the
same way peer 3, candidate of term 2 and set back to term 1 by the waiting handler,
grants the vote of term 2 to peer 1 while its own election for term 2 is running. -/
theorem vote_granted_twice_in_one_term :
    (∀ (p : Peer) (req_term : Nat),
      ((handleRequestVote p req_term).2 = true ↔ p.current_term_ < req_term) ∧
      (p.current_term_ < req_term →
        (handleRequestVote p req_term).1.current_term_ = req_term ∧
        (handleRequestVote p req_term).1.state_ = .FOLLOWER ∧
        (handleRequestVote p req_term).1.is_leader_known_ = false) ∧
      (¬ p.current_term_ < req_term → (handleRequestVote p req_term).1 = p)) ∧
    (run (Cluster.initial 5)
        (delayedHeartbeat ++ [.electionStart 1, .electionStart 2])).map
        (fun c => (view c, elections c))
      = some ([(.LEADER, 1), (.CANDIDATE, 2), (.CANDIDATE, 2), (.FOLLOWER, 1), (.FOLLOWER, 1)],
              [none, some (2, 0), some (2, 0), none, none]) ∧
    (run (Cluster.initial 5) (delayedHeartbeat ++ twoRequestsAroundWrite)).map
        (fun c => (view c, elections c))
      = some ([(.LEADER, 1), (.CANDIDATE, 2), (.CANDIDATE, 2), (.FOLLOWER, 2), (.FOLLOWER, 1)],
              [none, some (2, 1), some (2, 1), none, none]) ∧
    (run (Cluster.initial 5)
        (delayedHeartbeat ++ twoRequestsAroundWrite ++ bothElectionsEnd)).map view
      = some [(.FOLLOWER, 2), (.LEADER, 2), (.LEADER, 2), (.FOLLOWER, 2), (.FOLLOWER, 2)] ∧
    (run (Cluster.initial 5)
        (delayedHeartbeat
          ++ [.electionStart 3, .heartbeatApply 3, .electionStart 1, .requestVote 1 3])).map
        (fun c => (view c, elections c))
      = some ([(.LEADER, 1), (.CANDIDATE, 2), (.FOLLOWER, 1), (.FOLLOWER, 2), (.FOLLOWER, 1)],
              [none, some (2, 1), none, some (2, 0), none]) := by
  refine ⟨?_, by decide, by decide, by decide, by decide⟩
  intro p req_term
  unfold handleRequestVote
  by_cases h : p.current_term_ < req_term
  · simp [h]
  · simp [h]

end RaftCluster

/-! ## Theorems: history table -/

namespace History

theorem revisionAt_historyOf (timeAsRevision : Time → Outcome String) (payload : String) :
    revisionAt timeAsRevision (historyOf payload) 1 1 9
      = (timeAsRevision 5).andThen fun r => .ret (some r) := by
  rfl

/-- C27 (code defect): the revision that `revisionAt` returns is read from the field
`time` of the entry found, not from its field `revision`: whatever reading of a time as
a revision is assumed, the result does not change when the payloads of the history are
replaced, and there is a history of one entry, written by `insert` at time 5 and asked
for at time 9, for which the result is not the entry's payload. -/
theorem revisionAt_reads_time_field (timeAsRevision : Time → Outcome String) :
    (∀ (payload other : String),
      revisionAt timeAsRevision (historyOf payload) 1 1 9
        = revisionAt timeAsRevision (historyOf other) 1 1 9) ∧
    ∃ payload,
      chainEntryAt (historyOf payload) 1
          { rowId := 7, previous := 0, revision := payload, time := 5 } 9
        = .ret (some { rowId := 7, previous := 0, revision := payload, time := 5 }) ∧
      getRow (historyOf payload) 1
        = some { rowId := 7, previous := 0, revision := payload, time := 5 } ∧
      revisionAt timeAsRevision (historyOf payload) 1 1 9 ≠ .ret (some payload) := by
  refine ⟨fun payload other => ?_, ?_⟩
  · rw [revisionAt_historyOf, revisionAt_historyOf]
  · by_cases h : timeAsRevision 5 = .ret "a"
    · refine ⟨"b", rfl, rfl, ?_⟩
      rw [revisionAt_historyOf, h]
      simp [Outcome.andThen]
    · refine ⟨"a", rfl, rfl, ?_⟩
      rw [revisionAt_historyOf]
      cases hg : timeAsRevision 5 with
      | ret r =>
        simp only [Outcome.andThen, ne_eq, Outcome.ret.injEq, Option.some.injEq]
        intro hr
        exact h (by rw [hg, hr])
      | abort => simp [Outcome.andThen]
      | hang => simp [Outcome.andThen]

end History

/-! ## Theorems: peer bag and closest preceding finger -/

namespace ChordIndex

theorem isIn_eq_strictlyBetween (x a b : Key) (hx : x ≠ a) (hb : b ≠ a) :
    isIn x a b = strictlyBetween x a b := by
  unfold isIn strictlyBetween
  delta Key at *
  rw [if_neg hx, if_neg hb]
  by_cases hab : a < b
  · rw [if_pos (Nat.le_of_lt hab), if_pos hab]
  · rw [if_neg hab]
    have hba : ¬ a ≤ b := by omega
    rw [if_neg hba]
    apply Bool.decide_congr
    omega

theorem find?_congr_mem {α : Type} (l : List α) (p q : α → Bool)
    (h : ∀ x ∈ l, p x = q x) : l.find? p = l.find? q := by
  induction l with
  | nil => rfl
  | cons x xs ih =>
    simp only [List.find?_cons]
    rw [h x (List.mem_cons_self _ _)]
    rw [ih (fun y hy => h y (List.mem_cons_of_mem _ hy))]

theorem handleNotify_fingers_refer (hash : PeerId → Key) (n : State) (peer_id : PeerId)
    (hnew : peer_id ∉ n.peers_)
    (hfresh : ∀ f ∈ n.fingers_, f.peer.id ≠ peer_id) :
    (handleNotify hash n peer_id).fingers_.any (fun f => decide (f.peer.id = peer_id)) = true
      ↔ ∃ f ∈ n.fingers_, isIn (hash peer_id) f.base_key f.peer.key = true := by
  unfold handleNotify
  rw [if_neg hnew]
  simp only [List.any_map, List.any_eq_true, Function.comp_apply, decide_eq_true_eq]
  constructor
  · rintro ⟨f, hf, h⟩
    refine ⟨f, hf, ?_⟩
    by_cases hin : isIn (hash peer_id) f.base_key f.peer.key = true
    · exact hin
    · rw [if_neg hin] at h
      exact absurd h (hfresh f hf)
  · rintro ⟨f, hf, hin⟩
    refine ⟨f, hf, ?_⟩
    rw [if_pos hin]

/-- C24: for a candidate that is not in the peer bag, `handleNotify` adds the candidate
to the bag iff the call assigned it to a finger (`isIn(key, base_key, peer key)`), as
successor or as predecessor, and otherwise leaves the bag as it is; every other entry of
the bag stays.  When no finger, successor or predecessor referred to the candidate
before the call, the candidate is in the bag afterwards iff the node refers to it
afterwards. -/
theorem handleNotify_peer_bag (hash : PeerId → Key) (n : State) (peer_id : PeerId)
    (hnew : peer_id ∉ n.peers_) :
    (peer_id ∈ (handleNotify hash n peer_id).peers_ ↔
      ((∃ f ∈ n.fingers_, isIn (hash peer_id) f.base_key f.peer.key = true) ∨
        isIn (hash peer_id) n.own_key_ n.successor_.key = true ∨
        isIn (hash peer_id) n.predecessor_.key n.own_key_ = true)) ∧
    (peer_id ∈ (handleNotify hash n peer_id).peers_ →
      (handleNotify hash n peer_id).peers_ = peer_id :: n.peers_) ∧
    (peer_id ∉ (handleNotify hash n peer_id).peers_ →
      (handleNotify hash n peer_id).peers_ = n.peers_) ∧
    (refersTo n peer_id = false →
      (peer_id ∈ (handleNotify hash n peer_id).peers_ ↔
        refersTo (handleNotify hash n peer_id) peer_id = true)) := by
  have hbag : (handleNotify hash n peer_id).peers_
      = if (n.fingers_.any (fun f => isIn (hash peer_id) f.base_key f.peer.key)
            || isIn (hash peer_id) n.own_key_ n.successor_.key
            || isIn (hash peer_id) n.predecessor_.key n.own_key_) = true
        then peer_id :: n.peers_ else n.peers_ := by
    unfold handleNotify
    rw [if_neg hnew]
  have hused : (n.fingers_.any (fun f => isIn (hash peer_id) f.base_key f.peer.key)
            || isIn (hash peer_id) n.own_key_ n.successor_.key
            || isIn (hash peer_id) n.predecessor_.key n.own_key_) = true ↔
      ((∃ f ∈ n.fingers_, isIn (hash peer_id) f.base_key f.peer.key = true) ∨
        isIn (hash peer_id) n.own_key_ n.successor_.key = true ∨
        isIn (hash peer_id) n.predecessor_.key n.own_key_ = true) := by
    simp only [Bool.or_eq_true, List.any_eq_true, or_assoc]
  have hiff : peer_id ∈ (handleNotify hash n peer_id).peers_ ↔
      ((∃ f ∈ n.fingers_, isIn (hash peer_id) f.base_key f.peer.key = true) ∨
        isIn (hash peer_id) n.own_key_ n.successor_.key = true ∨
        isIn (hash peer_id) n.predecessor_.key n.own_key_ = true) := by
    rw [hbag, ← hused]
    split_ifs with h
    · exact ⟨fun _ => h, fun _ => List.mem_cons_self _ _⟩
    · exact ⟨fun hm => absurd hm hnew, fun hu => absurd hu h⟩
  refine ⟨hiff, ?_, ?_, ?_⟩
  · intro hmem
    rw [hbag] at hmem ⊢
    split_ifs at hmem ⊢ with h
    · rfl
    · exact absurd hmem hnew
  · intro hmem
    rw [hbag] at hmem ⊢
    split_ifs at hmem ⊢ with h
    · exact absurd (List.mem_cons_self _ _) hmem
    · rfl
  · intro hfresh
    rw [hiff]
    simp only [refersTo, Bool.or_eq_false_iff, List.any_eq_false, decide_eq_true_eq,
      decide_eq_false_iff_not] at hfresh
    obtain ⟨⟨hf, hs⟩, hp⟩ := hfresh
    have hfing := handleNotify_fingers_refer hash n peer_id hnew hf
    simp only [refersTo, Bool.or_eq_true, decide_eq_true_eq, or_assoc]
    rw [hfing]
    have hsucc : (handleNotify hash n peer_id).successor_.id = peer_id ↔
        isIn (hash peer_id) n.own_key_ n.successor_.key = true := by
      unfold handleNotify
      rw [if_neg hnew]
      simp only
      split_ifs with h
      · simp [h]
      · simp [h, hs]
    have hpred : (handleNotify hash n peer_id).predecessor_.id = peer_id ↔
        isIn (hash peer_id) n.predecessor_.key n.own_key_ = true := by
      unfold handleNotify
      rw [if_neg hnew]
      simp only
      split_ifs with h
      · simp [h]
      · simp [h, hp]
    rw [hsucc, hpred]

/-- C24 at node 1 after `create()` and the candidate peer 2 of key 3, which becomes
successor, predecessor and the peer of two fingers. -/
theorem handleNotify_peer_bag_witness :
    2 ∉ (create hashNear 1).peers_ ∧
    ((2 ∈ (handleNotify hashNear (create hashNear 1) 2).peers_ ↔
      ((∃ f ∈ (create hashNear 1).fingers_, isIn (hashNear 2) f.base_key f.peer.key = true) ∨
        isIn (hashNear 2) (create hashNear 1).own_key_ (create hashNear 1).successor_.key = true ∨
        isIn (hashNear 2) (create hashNear 1).predecessor_.key (create hashNear 1).own_key_
          = true)) ∧
    (2 ∈ (handleNotify hashNear (create hashNear 1) 2).peers_ →
      (handleNotify hashNear (create hashNear 1) 2).peers_ = 2 :: (create hashNear 1).peers_) ∧
    (2 ∉ (handleNotify hashNear (create hashNear 1) 2).peers_ →
      (handleNotify hashNear (create hashNear 1) 2).peers_ = (create hashNear 1).peers_) ∧
    (refersTo (create hashNear 1) 2 = false →
      (2 ∈ (handleNotify hashNear (create hashNear 1) 2).peers_ ↔
        refersTo (handleNotify hashNear (create hashNear 1) 2) 2 = true))) :=
  ⟨by decide, handleNotify_peer_bag hashNear (create hashNear 1) 2 (by decide)⟩

/-- C25 (code defect): `closestPrecedingFinger` tests `isIn(peer key, own_key, key)`,
whose arc includes `own_key`: a top finger whose peer key is `own_key` is selected for
every key.  Node 1 (key 1), whose fingers 0 and 1 are peer 2 (key 3) and whose other
fingers are the node itself, answers the node itself for the key 50, where the
specification's scan gives peer 2.  When the key is not `own_key` and no finger's peer
key is `own_key`, the code's scan and the specification's agree. -/
theorem closestPrecedingFinger_selects_own_key :
    (∀ (n : State) (key : Key) (f : Finger), n.fingers_.getLast? = some f →
      f.peer.key = n.own_key_ → closestPrecedingFinger n key = some f.peer) ∧
    (nodeNear.own_key_ = 1 ∧
      nodeNear.fingers_.map (fun f => f.peer.key)
        = [3, 3, 1, 1, 1, 1, 1, 1, 1, 1, 1, 1, 1, 1, 1, 1] ∧
      closestPrecedingFinger nodeNear 50 = some ⟨1, 1⟩ ∧
      closestPrecedingFingerInWords nodeNear 50 = some ⟨2, 3⟩) ∧
    (∀ (n : State) (key : Key), key ≠ n.own_key_ →
      (∀ f ∈ n.fingers_, f.peer.key ≠ n.own_key_) →
      closestPrecedingFinger n key = closestPrecedingFingerInWords n key) := by
  refine ⟨?_, by decide, ?_⟩
  · intro n key f hlast hkey
    obtain ⟨ys, hys⟩ := List.getLast?_eq_some_iff.mp hlast
    unfold closestPrecedingFinger
    rw [hys, List.reverse_append, List.reverse_singleton, List.singleton_append,
      List.find?_cons]
    have : isIn f.peer.key n.own_key_ key = true := by
      unfold isIn
      rw [if_pos hkey]
    rw [this]
    rfl
  · intro n key hkey hfingers
    unfold closestPrecedingFinger closestPrecedingFingerInWords
    congr 1
    apply find?_congr_mem
    intro f hf
    rw [List.mem_reverse] at hf
    exact isIn_eq_strictlyBetween _ _ _ (hfingers f hf) hkey

/-- C26 (code defect): `handleNotify` never removes an entry of the peer bag, and a
notify for a peer in the bag returns at once.  Node 1 (key 1) is notified of peer 2
(key 4), which it then refers to, and of peers 3 (key 3) and 4 (key 100), which displace
every reference to peer 2; peer 2 is still in the bag, and a further `notify` of peer 2
leaves the node as it is. -/
theorem displaced_peer_stays_in_bag :
    (∀ (hash : PeerId → Key) (n : State) (p q : PeerId),
      q ∈ n.peers_ → q ∈ (handleNotify hash n p).peers_) ∧
    (∀ (hash : PeerId → Key) (n : State) (p : PeerId),
      p ∈ n.peers_ → handleNotify hash n p = n) ∧
    (refersTo nodeCrowdTwo 2 = true ∧ nodeCrowdTwo.peers_ = [2]) ∧
    (refersTo nodeCrowd 2 = false ∧ nodeCrowd.peers_ = [4, 3, 2] ∧
      handleNotify hashCrowd nodeCrowd 2 = nodeCrowd) := by
  refine ⟨?_, ?_, by decide, by decide⟩
  · intro hash n p q hq
    simp only [handleNotify]
    split_ifs <;> simp [hq]
  · intro hash n p hp
    unfold handleNotify
    rw [if_pos hp]

end ChordIndex

/-! ## Theorems: updates of absent ids -/

namespace ChunkTransaction

end ChunkTransaction

/-! ## Theorems: net table handlers and the read lock -/

namespace NetTable

theorem routeToChunk_returns (handlers : ChunkHandlers) (takes_lock : Bool) (s : State)
    (chunk_id : Id) (request : ChunkRequest) (m : Message) :
    ∃ r, routeToChunk handlers takes_lock s chunk_id request (some m) = .ret r ∧
      r.state.active_chunks_lock_ = s.active_chunks_lock_ ∧
      (takes_lock = true →
        r.effects.head? = some .readLock ∧ r.effects.getLast? = some .unlock) ∧
      (takes_lock = false →
        Effect.readLock ∉ r.effects ∧ Effect.unlock ∉ r.effects ∧
          Effect.find chunk_id ∈ r.effects ∧
          (∀ found, s.active_chunks_.lookup chunk_id = some found →
            Effect.chunkHandler chunk_id request ∈ r.effects)) := by
  unfold routeToChunk routingBasics
  cases takes_lock <;> cases hfind : s.active_chunks_.lookup chunk_id <;>
    simp [hfind, Outcome.andThen]

/-- C30 (code defect): every chunk request handler returns with the lock depth of
`active_chunks_lock_` as before the call, and the handlers for connect, insert, leave,
lock, new-peer and unlock take the read lock first and release it last; but
`handleUpdateRequest` looks the chunk up and calls the chunk's handler without taking
the read lock at all. -/
theorem update_request_without_read_lock :
    (∀ (handlers : ChunkHandlers) (s : State) (chunk_id : Id) (request : ChunkRequest)
        (m : Message),
      ∃ r, handle handlers s chunk_id request (some m) = .ret r ∧
        r.state.active_chunks_lock_ = s.active_chunks_lock_ ∧
        ((∀ item sender, request ≠ .update item sender) →
          r.effects.head? = some .readLock ∧ r.effects.getLast? = some .unlock) ∧
        ((∃ item sender, request = .update item sender) →
          Effect.readLock ∉ r.effects ∧ Effect.unlock ∉ r.effects ∧
            Effect.find chunk_id ∈ r.effects ∧
            (∀ found, s.active_chunks_.lookup chunk_id = some found →
              Effect.chunkHandler chunk_id request ∈ r.effects))) ∧
    (handle ackHandlers tableWithChunk 42 (.lock 3) (some { type := "", serialized := "" })
      = .ret { state := tableWithChunk, response := { type := kAck, serialized := "" },
               effects := [.readLock, .find 42, .chunkHandler 42 (.lock 3), .unlock] }) ∧
    (handle ackHandlers tableWithChunk 42 (.update (ChunkTransaction.rev 7 3) 5)
        (some { type := "", serialized := "" })
      = .ret { state := tableWithChunk, response := { type := kAck, serialized := "" },
               effects := [.find 42, .chunkHandler 42 (.update (ChunkTransaction.rev 7 3) 5)] }) := by
  refine ⟨?_, by decide, by decide⟩
  intro handlers s chunk_id request m
  cases request with
  | update item sender =>
    obtain ⟨r, hr, hdepth, _, hno⟩ :=
      routeToChunk_returns handlers false s chunk_id (.update item sender) m
    refine ⟨r, hr, hdepth, ?_, fun _ => hno rfl⟩
    intro hne
    exact absurd rfl (hne item sender)
  | connect peer =>
    obtain ⟨r, hr, hdepth, hlock, _⟩ :=
      routeToChunk_returns handlers true s chunk_id (.connect peer) m
    exact ⟨r, hr, hdepth, fun _ => hlock rfl, fun ⟨_, _, h⟩ => by cases h⟩
  | insert item =>
    obtain ⟨r, hr, hdepth, hlock, _⟩ :=
      routeToChunk_returns handlers true s chunk_id (.insert item) m
    exact ⟨r, hr, hdepth, fun _ => hlock rfl, fun ⟨_, _, h⟩ => by cases h⟩
  | leave leaver =>
    obtain ⟨r, hr, hdepth, hlock, _⟩ :=
      routeToChunk_returns handlers true s chunk_id (.leave leaver) m
    exact ⟨r, hr, hdepth, fun _ => hlock rfl, fun ⟨_, _, h⟩ => by cases h⟩
  | lock locker =>
    obtain ⟨r, hr, hdepth, hlock, _⟩ :=
      routeToChunk_returns handlers true s chunk_id (.lock locker) m
    exact ⟨r, hr, hdepth, fun _ => hlock rfl, fun ⟨_, _, h⟩ => by cases h⟩
  | newPeer peer sender =>
    obtain ⟨r, hr, hdepth, hlock, _⟩ :=
      routeToChunk_returns handlers true s chunk_id (.newPeer peer sender) m
    exact ⟨r, hr, hdepth, fun _ => hlock rfl, fun ⟨_, _, h⟩ => by cases h⟩
  | unlock locker =>
    obtain ⟨r, hr, hdepth, hlock, _⟩ :=
      routeToChunk_returns handlers true s chunk_id (.unlock locker) m
    exact ⟨r, hr, hdepth, fun _ => hlock rfl, fun ⟨_, _, h⟩ => by cases h⟩

end NetTable

end map_api
